import Mathlib

/-!
Verification development for the FiveM update bot's core file-management
layer (src/main.py).  The Python code is shallowly embedded: the filesystem
is a flat list of (path, node) entries, paths are lists of name segments,
and each Python helper (create_backup_name, copy_server_files,
rollback, download_or_find_artifact, cleanup_old_files,
delete_backup_directory, find_backup_directories) is translated to an
executable Lean function over that state.
-/

namespace FiveM

/-! ### Decimal rendering of naturals, modelling Python str(int)
used for the collision counters in backup names. -/

def decDigit : Nat → Char
  | 0 => '0' | 1 => '1' | 2 => '2' | 3 => '3' | 4 => '4'
  | 5 => '5' | 6 => '6' | 7 => '7' | 8 => '8' | _ => '9'

def digitVal : Char → Nat
  | '0' => 0 | '1' => 1 | '2' => 2 | '3' => 3 | '4' => 4
  | '5' => 5 | '6' => 6 | '7' => 7 | '8' => 8 | '9' => 9 | _ => 0

def decChars : Nat → Nat → List Char
  | 0, _ => []
  | fuel+1, n => if n < 10 then [decDigit n] else decChars fuel (n / 10) ++ [decDigit (n % 10)]

def decStr (n : Nat) : String := String.mk (decChars (n + 1) n)

def charsVal (l : List Char) : Nat := l.foldl (fun acc c => 10 * acc + digitVal c) 0

/-! ### Paths and filesystem state

A path is the list of name segments below some filesystem root.  The
filesystem is a flat list of entries, one per existing file or directory;
a file records its byte content as a string. -/

abbrev Path := List String

inductive Node where
  | file (content : String)
  | dir
deriving DecidableEq

abbrev FS := List (Path × Node)

def FS.lookup (fs : FS) (p : Path) : Option Node :=
  (fs.find? (fun e => e.1 == p)).map (fun e => e.2)

/-- Python Path.exists: a path exists when some recorded entry sits at it
or below it. -/
def FS.pathExists (fs : FS) (p : Path) : Bool :=
  fs.any (fun e => List.isPrefixOf p e.1)

def FS.isDir (fs : FS) (p : Path) : Bool :=
  match FS.lookup fs p with
  | some Node.dir => true
  | _ => false

def FS.erasePath (fs : FS) (p : Path) : FS :=
  fs.filter (fun e => !(e.1 == p))

/-- Create or overwrite a single entry. -/
def FS.set (fs : FS) (p : Path) (n : Node) : FS :=
  (p, n) :: FS.erasePath fs p

/-- Remove the whole tree rooted at p (models shutil.rmtree / the removal
half of a rename). -/
def FS.eraseTree (fs : FS) (p : Path) : FS :=
  fs.filter (fun e => !(List.isPrefixOf p e.1))

/-- All entries at or below p, with p stripped off their paths. -/
def FS.subtree (fs : FS) (p : Path) : List (Path × Node) :=
  fs.filterMap (fun e =>
    if List.isPrefixOf p e.1 then some (e.1.drop p.length, e.2) else none)

/-- Plain rename of the tree at src to dst (dst assumed absent). -/
def FS.rename (fs : FS) (src dst : Path) : FS :=
  ((FS.subtree fs src).map (fun e => (dst ++ e.1, e.2))) ++ FS.eraseTree fs src

def pathLast (p : Path) : String := p.getLastD ""

/-- shutil.move: moving onto an existing directory moves the source inside
it; otherwise it is a rename. -/
def FS.move (fs : FS) (src dst : Path) : FS :=
  if FS.pathExists fs dst && FS.isDir fs dst then
    FS.rename fs src (dst ++ [pathLast src])
  else FS.rename fs src dst

/-- Path.mkdir(parents=True, exist_ok=True): create every missing
directory along the chain down to p. -/
def FS.mkdirp (fs : FS) (p : Path) : FS :=
  (List.range p.length).foldl
    (fun acc i =>
      let q := p.take (i + 1)
      if FS.pathExists acc q then acc else FS.set acc q Node.dir)
    fs

/-- Immediate children of p as (name, node) pairs, in entry order
(models Path.iterdir enumeration). -/
def FS.childrenPairs (fs : FS) (p : Path) : List (String × Node) :=
  fs.filterMap (fun e =>
    if e.1.dropLast = p then
      match e.1.getLast? with
      | some n => some (n, e.2)
      | none => none
    else none)

/-- shutil.copytree with dirs_exist_ok=True: every entry of the source
tree is written at the corresponding path under dst, overwriting files
and merging directories; entries under dst absent from the source stay.
Without dirs_exist_ok the call requires the destination to be absent, in
which case the behaviour coincides. -/
def FS.copytree (fs : FS) (src dst : Path) : FS :=
  (FS.subtree fs src).foldl (fun acc e => FS.set acc (dst ++ e.1) e.2) fs

/-- The top-level copy loop of copy_server_files and the restore loops:
for each child, shutil.copy2 for files and shutil.copytree(...,
dirs_exist_ok=True) for directories, counting files and directories
copied. -/
def FS.copyChildren (fs0 : FS) (src dst : Path) : FS × Nat × Nat :=
  (FS.childrenPairs fs0 src).foldl
    (fun acc c =>
      match c.2 with
      | Node.file s => (FS.set acc.1 (dst ++ [c.1]) (Node.file s), acc.2.1 + 1, acc.2.2)
      | Node.dir => (FS.copytree acc.1 (src ++ [c.1]) (dst ++ [c.1]), acc.2.1, acc.2.2 + 1))
    (fs0, 0, 0)

/-- os.walk-based counting: all files and all directories strictly below
root (the root itself is not counted). -/
def FS.walkCounts (fs : FS) (root : Path) : Nat × Nat :=
  ((FS.subtree fs root).filter (fun e => !(e.1 == ([] : Path)))).foldl
    (fun acc e =>
      match e.2 with
      | Node.file _ => (acc.1 + 1, acc.2)
      | Node.dir => (acc.1, acc.2 + 1))
    (0, 0)

/-- All paths recorded in the filesystem are distinct (true of a real
directory tree). -/
def FS.NodupPaths (fs : FS) : Prop := (fs.map Prod.fst).Nodup

/-- Two directories are separated when neither contains the other. -/
def pathsSeparated (a b : Path) : Prop := ¬ a <+: b ∧ ¬ b <+: a

/-! ### Version marker and backup naming (get_current_version,
create_version_file, create_backup_name in src/main.py) -/

/-- Python str.strip(): drop leading and trailing whitespace, stated on
the character list of the string. -/
def strTrim (s : String) : String :=
  String.mk ((s.data.dropWhile Char.isWhitespace).reverse.dropWhile Char.isWhitespace).reverse

/-- get_current_version: read version.txt at the root of the tree, strip
whitespace, treat an empty result (and any read failure, e.g. version.txt
being a directory) as None. -/
def get_current_version (fs : FS) (target : Path) : Option String :=
  match FS.lookup fs (target ++ ["version.txt"]) with
  | some (Node.file c) =>
    let v := strTrim c
    if v = "" then none else some v
  | _ => none

/-- Python truthiness of the optional artifact-number string. -/
def truthyStr : Option String → Bool
  | none => false
  | some s => !(s == "")

/-- The while-loop searching for the first free candidate index, with
explicit fuel (the loop in create_backup_name). -/
def firstFree (taken : Nat → Bool) : Nat → Nat → Nat
  | 0, k => k
  | fuel+1, k => if taken k then firstFree taken fuel (k + 1) else k

/-- Candidate names in the version/artifact branch: base, base_1, base_2… -/
def backupCand (base : String) : Nat → String
  | 0 => base
  | k+1 => base ++ "_" ++ decStr (k + 1)

/-- Candidate names in the generic fallback branch: base1, base2, … where
base is dir_name ++ "_bak". -/
def bakCand (base : String) (k : Nat) : String := base ++ decStr (k + 1)

/-- The candidate sequence create_backup_name walks, by branch:
current version marker, else truthy artifact number, else _bakN. -/
def backupCandSeq (fs : FS) (target : Path) (newArtifact : Option String) : Nat → String :=
  let baseName := pathLast target
  match get_current_version fs target with
  | some v => backupCand (baseName ++ "_backup_" ++ v)
  | none =>
    match newArtifact with
    | some a => if a = "" then bakCand (baseName ++ "_bak") else backupCand (baseName ++ "_backup_" ++ a)
    | none => bakCand (baseName ++ "_bak")

/-- create_backup_name: first candidate name, in the branch-appropriate
sequence, that is free in the parent directory. -/
def create_backup_name (fs : FS) (target : Path) (newArtifact : Option String) : Path :=
  let parent := target.dropLast
  let cand := backupCandSeq fs target newArtifact
  let k := firstFree (fun k => FS.pathExists fs (parent ++ [cand k])) (fs.length + 1) 0
  parent ++ [cand k]

/-- create_version_file: write the artifact number to version.txt; a write
failure is caught and logged, never propagated. -/
def create_version_file (fs : FS) (target : Path) (art : String) (writeFails : Bool) : FS :=
  if writeFails then fs else FS.set fs (target ++ ["version.txt"]) (Node.file art)

/-! ### copy_server_files (the Swap Engine apply step) -/

/-- Injectable failures of the fallible filesystem steps inside
copy_server_files; a true flag means the corresponding OS call raises. -/
structure Faults where
  backupMoveFails : Bool
  dataMoveFails : Bool
  installFails : Bool
  restoreFails : Bool
  versionWriteFails : Bool
deriving DecidableEq

def noFaults : Faults := ⟨false, false, false, false, false⟩

/-- Result record of copy_server_files.  The single data_restored counter
pair of the source is split into its per-tier increments (the source
value is their sum); tierB_ran / tierC_ran record that the corresponding
restore branch was entered. -/
structure CopyResult where
  backup_created : Option String
  data_backup_created : Option String
  copied_files : Nat
  copied_dirs : Nat
  tierA_files : Nat
  tierA_dirs : Nat
  tierB_files : Nat
  tierB_dirs : Nat
  tierC_files : Nat
  tierC_dirs : Nat
  tierB_ran : Bool
  tierC_ran : Bool
deriving DecidableEq

def CopyResult.data_restored_files (r : CopyResult) : Nat :=
  r.tierA_files + r.tierB_files + r.tierC_files

def CopyResult.data_restored_dirs (r : CopyResult) : Nat :=
  r.tierA_dirs + r.tierB_dirs + r.tierC_dirs

/-- Step 1: if the deployment directory exists and is non-empty, move it
aside to a fresh backup name. -/
def step_backup_target (fs : FS) (target : Path) (art : Option String) (fail : Bool) :
    FS × Except Unit (Option String) :=
  if FS.pathExists fs target && !(FS.childrenPairs fs target).isEmpty then
    if fail then (fs, Except.error ()) else
      let bp := create_backup_name fs target art
      (FS.move fs target bp, Except.ok (some (pathLast bp)))
  else (fs, Except.ok none)

/-- Step 2: likewise for the configured server-data directory. -/
def step_backup_data (fs : FS) (sd : Option Path) (art : Option String) (fail : Bool) :
    FS × Except Unit (Option String) :=
  match sd with
  | none => (fs, Except.ok none)
  | some d =>
    if FS.pathExists fs d && !(FS.childrenPairs fs d).isEmpty then
      if fail then (fs, Except.error ()) else
        let bp := create_backup_name fs d art
        (FS.move fs d bp, Except.ok (some (pathLast bp)))
    else (fs, Except.ok none)

/-- Step 3: recreate the deployment directory and copy every top-level
entry of the extracted tree into it. -/
def step_install (fs : FS) (source target : Path) (fail : Bool) :
    FS × Except Unit (Nat × Nat) :=
  let fs1 := FS.mkdirp fs target
  if fail then (fs1, Except.error ()) else
    let r := FS.copyChildren fs1 source target
    (r.1, Except.ok r.2)

/-- Restore tier (a): the server-data backup made in step 2, when one was
made and still exists. -/
def step_restore_a (fs : FS) (sd : Option Path) (dataBackupCreated : Option String) :
    FS × Nat × Nat :=
  match sd, dataBackupCreated with
  | some d, some nm =>
    let bp := d.dropLast ++ [nm]
    if FS.pathExists fs bp then
      let fs1 := FS.mkdirp fs d
      FS.copyChildren fs1 bp d
    else (fs, 0, 0)
  | _, _ => (fs, 0, 0)

/-- Restore tier (b): a ServerData directory nested inside the deployment
backup made in step 1.  Note in the source this branch is guarded only by
backup_created and the existence check, not by tier (a) having restored
nothing. -/
def step_restore_b (fs : FS) (target : Path) (sd : Option Path) (backupCreated : Option String) :
    FS × Nat × Nat × Bool :=
  match backupCreated with
  | none => (fs, 0, 0, false)
  | some nm =>
    let sdib := (target.dropLast ++ [nm]) ++ ["ServerData"]
    if FS.pathExists fs sdib then
      match sd with
      | some d =>
        let fs1 := FS.mkdirp fs d
        let r := FS.copyChildren fs1 sdib d
        (r.1, r.2.1, r.2.2, true)
      | none =>
        let dst := target ++ ["ServerData"]
        let fs1 := FS.copytree fs sdib dst
        let w := FS.walkCounts fs1 dst
        (fs1, w.1, w.2, true)
    else (fs, 0, 0, false)

/-- Restore tier (c): server-data shipped inside the extracted artifact,
tried only when the accumulated restore counters are still zero. -/
def step_restore_c (fs : FS) (source target : Path) (sd : Option Path)
    (restoredFiles restoredDirs : Nat) : FS × Nat × Nat × Bool :=
  if restoredFiles = 0 && restoredDirs = 0 then
    let sdp := source ++ ["server-data"]
    if FS.pathExists fs sdp then
      match sd with
      | some d =>
        let fs1 := FS.mkdirp fs d
        let r := FS.copyChildren fs1 sdp d
        (r.1, r.2.1, r.2.2, true)
      | none =>
        let dst := target ++ ["ServerData"]
        let fs1 := FS.copytree fs sdp dst
        let w := FS.walkCounts fs1 dst
        (fs1, w.1, w.2, true)
    else (fs, 0, 0, false)
  else (fs, 0, 0, false)

/-- copy_server_files: back up deployment and data trees, install the
extracted tree, restore data through the three tiers, then write
version.txt when an artifact number was supplied.  Any step failure
(other than the version write, whose failure the source swallows)
propagates as an error, leaving the state reached so far. -/
def copy_server_files (fs0 : FS) (source target : Path) (sd : Option Path)
    (art : Option String) (fl : Faults) : FS × Except Unit CopyResult :=
  match step_backup_target fs0 target art fl.backupMoveFails with
  | (fs1, Except.error _) => (fs1, Except.error ())
  | (fs1, Except.ok backupCreated) =>
    match step_backup_data fs1 sd art fl.dataMoveFails with
    | (fs2, Except.error _) => (fs2, Except.error ())
    | (fs2, Except.ok dataBackupCreated) =>
      match step_install fs2 source target fl.installFails with
      | (fs3, Except.error _) => (fs3, Except.error ())
      | (fs3, Except.ok (cf, cd)) =>
        if fl.restoreFails then (fs3, Except.error ()) else
          let ra := step_restore_a fs3 sd dataBackupCreated
          let rb := step_restore_b ra.1 target sd backupCreated
          let rc := step_restore_c rb.1 source target sd
            (ra.2.1 + rb.2.1) (ra.2.2 + rb.2.2.1)
          let fs4 := if truthyStr art then
              create_version_file rc.1 target (art.getD "") fl.versionWriteFails
            else rc.1
          (fs4,
           Except.ok
             { backup_created := backupCreated
               data_backup_created := dataBackupCreated
               copied_files := cf
               copied_dirs := cd
               tierA_files := ra.2.1
               tierA_dirs := ra.2.2
               tierB_files := rb.2.1
               tierB_dirs := rb.2.2.1
               tierB_ran := rb.2.2.2
               tierC_files := rc.2.1
               tierC_dirs := rc.2.2.1
               tierC_ran := rc.2.2.2 })

/-! ### Rollback core (rollback_server, src/main.py lines 1014-1022) -/

/-- The file-manipulation core of the rollback command: move the current
deployment aside under a fresh backup name derived from its version
marker, then copy (not move) the chosen backup back in place. -/
def rollback_core (fs : FS) (target : Path) (backupPath : Path) : FS × Path :=
  let sb := create_backup_name fs target none
  let fs1 := FS.move fs target sb
  let fs2 := FS.copytree fs1 backupPath target
  (fs2, sb)

/-! ### Artifact cache (download_or_find_artifact, src/main.py) -/

/-- Glob pattern pre*suf (the cache lookup uses artifact_number*.7z):
the name starts with pre, ends with suf, and is long enough that the two
do not overlap.  Stated on the character lists of the strings. -/
def globMatch (pre suf name : String) : Bool :=
  List.isPrefixOf pre.data name.data && List.isSuffixOf suf.data name.data &&
  decide (pre.data.length + suf.data.length ≤ name.data.length)

/-- State the cache operates on: the download-directory listing in
enumeration order, and the remote directory listing as (artifact id,
hash-suffixed directory name) pairs. -/
structure CacheEnv where
  downloadDir : List String
  listing : List (String × String)
deriving DecidableEq

/-- The files Path.glob(artifact_number*.7z) yields, in enumeration
order. -/
def cacheMatches (env : CacheEnv) (artifactNumber : String) : List String :=
  env.downloadDir.filter (globMatch artifactNumber ".7z")

/-- get_artifact_hash_from_directory: scan the remote listing for the
entry of this artifact id; raise when absent. -/
def find_artifact_dir (env : CacheEnv) (artifactNumber : String) : Option String :=
  (env.listing.find? (fun e => e.1 == artifactNumber)).map (fun e => e.2)

/-- download_or_find_artifact: return the first cached glob match unless
force_download is set; otherwise resolve the remote directory and
download to artifact_number.7z in the cache.  The Bool of the result is
true when a network fetch was performed. -/
def download_or_find_artifact (env : CacheEnv) (artifactNumber : String) (force : Bool) :
    Except Unit (String × Bool × CacheEnv) :=
  let hits := cacheMatches env artifactNumber
  if !hits.isEmpty && !force then
    Except.ok (hits.headD "", false, env)
  else
    match find_artifact_dir env artifactNumber with
    | none => Except.error ()
    | some _ =>
      let fname := artifactNumber ++ ".7z"
      let dir := if env.downloadDir.contains fname then env.downloadDir
                 else env.downloadDir ++ [fname]
      Except.ok (fname, true, { env with downloadDir := dir })

/-! ### Cleanup of cached archives (cleanup_old_files, src/main.py) -/

/-- One cached file: name and modification time in seconds. -/
structure CachedFile where
  name : String
  mtime : Int
deriving DecidableEq

/-- cleanup_old_files: with days_old ≤ 0 delete nothing; otherwise delete
every *.7z in the download directory whose mtime is strictly before
now − days_old days, returning the remaining listing and the count of
deleted files. -/
def doomedFile (now daysOld : Int) (f : CachedFile) : Bool :=
  List.isSuffixOf ".7z".data f.name.data && decide (f.mtime < now - daysOld * 86400)

def cleanup_old_files (files : List CachedFile) (now : Int) (daysOld : Int) :
    List CachedFile × Nat :=
  if daysOld ≤ 0 then (files, 0)
  else
    (files.filter (fun f => !doomedFile now daysOld f),
     (files.filter (doomedFile now daysOld)).length)

/-! ### Backup deletion (delete_backup_directory, src/main.py) -/

/-- delete_backup_directory: rmtree and return true when the path exists
and is a directory, false otherwise; an rmtree failure is re-raised. -/
def delete_backup_directory (fs : FS) (p : Path) (rmtreeFails : Bool) :
    FS × Except Unit Bool :=
  if FS.pathExists fs p && FS.isDir fs p then
    if rmtreeFails then (fs, Except.error ())
    else (FS.eraseTree fs p, Except.ok true)
  else (fs, Except.ok false)

/-! ### Backup catalog (find_backup_directories, src/main.py) -/

/-- One entry of a directory listing as the catalog scan sees it: name,
kind, creation time, and the names of its immediate children (used for
the nested-ServerData check). -/
structure DirEntry where
  name : String
  isDir : Bool
  ctime : Nat
  children : List String
deriving DecidableEq

/-- A classified backup as reported by find_backup_directories (the
size_mb field of the source is omitted). -/
structure BackupEntry where
  name : String
  created : Nat
  btype : String
deriving DecidableEq

def classifyServerBackup (e : DirEntry) : BackupEntry :=
  { name := e.name, created := e.ctime,
    btype := if e.children.contains "ServerData" then "server+data" else "server" }

def classifyDataBackup (e : DirEntry) : BackupEntry :=
  { name := e.name, created := e.ctime, btype := "server-data" }

def backupNewerEq (a b : BackupEntry) : Prop := b.created ≤ a.created

/-- Strictly newer; used to state that with distinct creation times the
sorted catalog order is unique. -/
def backupNewer (a b : BackupEntry) : Prop := b.created < a.created

instance : DecidableRel backupNewerEq := fun a b => Nat.decLe b.created a.created

instance : IsTotal BackupEntry backupNewerEq := ⟨fun a b => Nat.le_total b.created a.created⟩

instance : IsTrans BackupEntry backupNewerEq :=
  ⟨fun _ _ _ h h2 => Nat.le_trans h2 h⟩

instance : IsAntisymm BackupEntry backupNewer :=
  ⟨fun _ _ h h2 => absurd (Nat.lt_trans h h2) (Nat.lt_irrefl _)⟩

/-- Relates two configured data-scan inputs whose sibling listings are
permutations of each other (same configured name). -/
def dataPermRel : Option (List DirEntry × String) → Option (List DirEntry × String) → Prop
  | none, none => True
  | some (l2, n2), some (l1, n1) => n2 = n1 ∧ l2.Perm l1
  | _, _ => False

/-- The unsorted scan of find_backup_directories: deployment-sibling
directories matching name_backup* classified by a nested ServerData
entry, then, when a data path is configured, data-sibling directories
matching dataname_backup* classified server-data. -/
def catalogEntries (serverSiblings : List DirEntry) (serverName : String)
    (dataCfg : Option (List DirEntry × String)) : List BackupEntry :=
  (serverSiblings.filter
    (fun e => e.isDir &&
      List.isPrefixOf (serverName ++ "_backup").data e.name.data)).map classifyServerBackup ++
  (match dataCfg with
   | none => []
   | some (dataSiblings, dataName) =>
     (dataSiblings.filter
       (fun e => e.isDir &&
         List.isPrefixOf (dataName ++ "_backup").data e.name.data)).map classifyDataBackup)

/-- find_backup_directories: the scanned backups sorted
newest-created-first (Python list.sort with reverse=True, modelled by a
stable insertion sort under the newer-or-equal relation). -/
def find_backup_directories (serverSiblings : List DirEntry) (serverName : String)
    (dataCfg : Option (List DirEntry × String)) : List BackupEntry :=
  (catalogEntries serverSiblings serverName dataCfg).insertionSort backupNewerEq

/-! ### Decidable extensional agreement of two filesystem states -/

/-- Both states record the same trees: every entry of each is looked up
identically in the other (so the domains coincide exactly). -/
def FS.agree (fs1 fs2 : FS) : Bool :=
  fs1.all (fun e => FS.lookup fs2 e.1 == some e.2) &&
  fs2.all (fun e => FS.lookup fs1 e.1 == some e.2)

/-! ### Concrete states used in the scenario claims -/

/-- The testable-property scenario of the spec: DeploymentPath contains
a.txt and an empty directory sub, the extracted tree contains b.txt and
sub/c.txt. -/
def scenarioFS : FS :=
  [(["base"], Node.dir), (["base", "server"], Node.dir),
   (["base", "server", "a.txt"], Node.file "A"), (["base", "server", "sub"], Node.dir),
   (["src"], Node.dir), (["src", "b.txt"], Node.file "B"), (["src", "sub"], Node.dir),
   (["src", "sub", "c.txt"], Node.file "C")]

/-- Expected state after apply: exactly one new backup holding the
pre-apply content, the deployment replaced by the extracted tree plus
the version marker, the source untouched. -/
def scenarioExpected : FS :=
  [(["base"], Node.dir),
   (["base", "server"], Node.dir),
   (["base", "server", "b.txt"], Node.file "B"),
   (["base", "server", "sub"], Node.dir),
   (["base", "server", "sub", "c.txt"], Node.file "C"),
   (["base", "server", "version.txt"], Node.file "2"),
   (["base", "server_backup_2"], Node.dir),
   (["base", "server_backup_2", "a.txt"], Node.file "A"),
   (["base", "server_backup_2", "sub"], Node.dir),
   (["src"], Node.dir), (["src", "b.txt"], Node.file "B"), (["src", "sub"], Node.dir),
   (["src", "sub", "c.txt"], Node.file "C")]

/-- State exercising the restore tiers together: the deployment contains
a nested ServerData (so its backup feeds tier (b)) while a separate data
directory is configured and non-empty (so tier (a) yields entries). -/
def tierFS : FS :=
  [(["b"], Node.dir), (["b", "srv"], Node.dir),
   (["b", "srv", "x.txt"], Node.file "X"),
   (["b", "srv", "ServerData"], Node.dir),
   (["b", "srv", "ServerData", "k.txt"], Node.file "K"),
   (["b", "data"], Node.dir), (["b", "data", "y.txt"], Node.file "Y"),
   (["s"], Node.dir), (["s", "f.txt"], Node.file "F")]

/-- A faults record in which only the version.txt write fails. -/
def versionWriteFault : Faults := ⟨false, false, false, false, true⟩

/-- A faults record in which the install copy fails (after the backup
moves succeeded). -/
def installFault : Faults := ⟨false, false, true, false, false⟩

/-- A deployment at version 2 holding f.txt = New, next to a retained
backup of version 1 holding f.txt = Old; used for the rollback claim. -/
def rollbackFS : FS :=
  [(["b"], Node.dir), (["b", "srv"], Node.dir),
   (["b", "srv", "version.txt"], Node.file "2"),
   (["b", "srv", "f.txt"], Node.file "New"),
   (["b", "srv_backup_1"], Node.dir),
   (["b", "srv_backup_1", "f.txt"], Node.file "Old")]

/-! ## Lemmas about decimal rendering -/

theorem digitVal_decDigit {n : Nat} (h : n < 10) : digitVal (decDigit n) = n := by
  interval_cases n <;> rfl

theorem charsVal_append_digit (l : List Char) (c : Char) :
    charsVal (l ++ [c]) = 10 * charsVal l + digitVal c := by
  simp [charsVal, List.foldl_append]

theorem charsVal_decChars : ∀ fuel n, n ≤ fuel → charsVal (decChars fuel n) = n := by
  intro fuel
  induction fuel with
  | zero =>
    intro n hn
    have : n = 0 := Nat.le_zero.mp hn
    subst this
    simp [decChars, charsVal]
  | succ f ih =>
    intro n hn
    by_cases h : n < 10
    · simp [decChars, h, charsVal, digitVal_decDigit h]
    · have h10 : 10 ≤ n := Nat.le_of_not_lt h
      have hdiv : n / 10 ≤ f := by
        have hlt : n / 10 < n := Nat.div_lt_self (by omega) (by omega)
        omega
      have hrec := ih (n / 10) hdiv
      simp only [decChars, if_neg h]
      rw [charsVal_append_digit, hrec, digitVal_decDigit (Nat.mod_lt _ (by omega))]
      omega

theorem charsVal_decStr (n : Nat) : charsVal (decChars (n + 1) n) = n :=
  charsVal_decChars (n + 1) n (Nat.le_succ n)

theorem decStr_injective : Function.Injective decStr := by
  intro a b h
  have hdata : decChars (a + 1) a = decChars (b + 1) b := by
    have := congrArg String.data h
    simpa [decStr] using this
  have := charsVal_decStr a
  rw [hdata, charsVal_decStr b] at this
  omega

theorem decChars_ne_nil : ∀ fuel n, decChars (fuel + 1) n ≠ [] := by
  intro fuel n
  by_cases h : n < 10 <;> simp [decChars, h]

theorem decStr_ne_empty (n : Nat) : decStr n ≠ "" := by
  intro h
  have := congrArg String.data h
  simp only [decStr] at this
  exact decChars_ne_nil n n this

/-! ## Lemmas about the filesystem model -/

theorem find?_filter_of_imp {α : Type} {l : List α} {p q : α → Bool}
    (h : ∀ a, p a = true → q a = true) : (l.filter q).find? p = l.find? p := by
  induction l with
  | nil => rfl
  | cons a l ih =>
    cases hq : q a with
    | true =>
      cases hp : p a with
      | true => simp [List.filter_cons, hq, hp]
      | false => simp [List.filter_cons, hq, hp, ih]
    | false =>
      have hp : p a = false := by
        cases hpa : p a with
        | true => rw [h a hpa] at hq; exact absurd hq (by simp)
        | false => rfl
      simp [List.filter_cons, hq, hp, ih]

theorem FS.pathExists_iff {fs : FS} {p : Path} :
    FS.pathExists fs p = true ↔ ∃ e ∈ fs, p <+: e.1 := by
  unfold FS.pathExists
  rw [List.any_eq_true]
  constructor
  · rintro ⟨e, he, hp⟩
    exact ⟨e, he, List.isPrefixOf_iff_prefix.mp hp⟩
  · rintro ⟨e, he, hp⟩
    exact ⟨e, he, List.isPrefixOf_iff_prefix.mpr hp⟩

theorem FS.lookup_isSome_pathExists {fs : FS} {p : Path}
    (h : (FS.lookup fs p).isSome = true) : FS.pathExists fs p = true := by
  unfold FS.lookup at h
  rw [Option.isSome_map'] at h
  rw [List.find?_isSome] at h
  obtain ⟨e, he, hpe⟩ := h
  exact FS.pathExists_iff.mpr ⟨e, he, by rw [eq_of_beq hpe]⟩

theorem FS.pathExists_of_lookup {fs : FS} {p : Path} {n : Node}
    (h : FS.lookup fs p = some n) : FS.pathExists fs p = true :=
  FS.lookup_isSome_pathExists (by rw [h]; rfl)

theorem FS.exists_lookup_of_pathExists {fs : FS} {p : Path}
    (h : FS.pathExists fs p = true) : ∃ r, (FS.lookup fs (p ++ r)).isSome = true := by
  obtain ⟨e, he, hpre⟩ := FS.pathExists_iff.mp h
  obtain ⟨r, hr⟩ := hpre
  refine ⟨r, ?_⟩
  unfold FS.lookup
  rw [Option.isSome_map', List.find?_isSome]
  exact ⟨e, he, by rw [hr]; simp⟩

theorem FS.lookup_set_self (fs : FS) (p : Path) (n : Node) :
    FS.lookup (FS.set fs p n) p = some n := by
  unfold FS.lookup FS.set
  rw [List.find?_cons_of_pos _ (by simp)]
  rfl

theorem FS.lookup_set_ne (fs : FS) {p q : Path} (n : Node) (h : q ≠ p) :
    FS.lookup (FS.set fs p n) q = FS.lookup fs q := by
  unfold FS.lookup FS.set FS.erasePath
  rw [List.find?_cons_of_neg _ (by simpa using Ne.symm h), find?_filter_of_imp]
  intro e he
  have : e.1 = q := by simpa using he
  simp [this, h]

theorem FS.lookup_eraseTree_of_not_pre {fs : FS} {p q : Path} (h : ¬ p <+: q) :
    FS.lookup (FS.eraseTree fs p) q = FS.lookup fs q := by
  unfold FS.lookup FS.eraseTree
  rw [find?_filter_of_imp]
  intro e he
  have heq : e.1 = q := by simpa using he
  subst heq
  simp only [Bool.not_eq_eq_eq_not, Bool.not_true]
  cases hp : List.isPrefixOf p e.1 with
  | true => exact absurd (List.isPrefixOf_iff_prefix.mp hp) h
  | false => rfl

theorem FS.lookup_eraseTree_of_pre {fs : FS} {p q : Path} (h : p <+: q) :
    FS.lookup (FS.eraseTree fs p) q = none := by
  unfold FS.lookup FS.eraseTree
  rw [Option.map_eq_none', List.find?_eq_none]
  intro e he
  rw [List.mem_filter] at he
  intro hbeq
  have heq : e.1 = q := by simpa using hbeq
  have : List.isPrefixOf p e.1 = true := List.isPrefixOf_iff_prefix.mpr (heq ▸ h)
  simp [this] at he

theorem FS.find?_map_key {l : List (Path × Node)} {dst r : Path} :
    ((l.map (fun e => (dst ++ e.1, e.2))).find? (fun e => e.1 == dst ++ r)) =
      (l.find? (fun e => e.1 == r)).map (fun e => (dst ++ e.1, e.2)) := by
  induction l with
  | nil => rfl
  | cons e l ih =>
    by_cases h : e.1 = r
    · subst h
      rw [List.map_cons, List.find?_cons_of_pos _ (by simp),
        List.find?_cons_of_pos _ (by simp)]
      rfl
    · have hne : ¬ dst ++ e.1 = dst ++ r := fun hc => h (List.append_cancel_left hc)
      rw [List.map_cons, List.find?_cons_of_neg _ (by simp [hne]),
        List.find?_cons_of_neg _ (by simp [h]), ih]

theorem FS.find?_subtree (fs : FS) (src r : Path) :
    ((FS.subtree fs src).find? (fun e => e.1 == r)).map (fun e => e.2) =
      FS.lookup fs (src ++ r) := by
  induction fs with
  | nil => rfl
  | cons e fs ih =>
    unfold FS.subtree FS.lookup at *
    rw [List.filterMap_cons]
    by_cases hp : List.isPrefixOf src e.1 = true
    · simp only [hp, if_true]
      by_cases hk : e.1.drop src.length = r
      · have hse : e.1 = src ++ r := by
          obtain ⟨t, ht⟩ := List.isPrefixOf_iff_prefix.mp hp
          rw [← ht, ← hk, ← ht]
          simp
        rw [List.find?_cons_of_pos _ (by simp [hk]),
          List.find?_cons_of_pos _ (by simp [hse])]
        rfl
      · have hne : ¬ e.1 = src ++ r := by
          intro hc
          apply hk
          rw [hc]
          simp
        rw [List.find?_cons_of_neg _ (by simp [hk]),
          List.find?_cons_of_neg _ (by simp [hne]), ih]
    · have hne : ¬ e.1 = src ++ r := by
        intro hc
        exact hp (List.isPrefixOf_iff_prefix.mpr ⟨r, hc.symm⟩)
      rw [if_neg hp, List.find?_cons_of_neg _ (by simp [hne]), ih]

theorem FS.lookup_append (l₁ l₂ : FS) (q : Path) :
    FS.lookup (l₁ ++ l₂) q = (FS.lookup l₁ q).or (FS.lookup l₂ q) := by
  unfold FS.lookup
  rw [List.find?_append]
  cases l₁.find? (fun e => e.1 == q) <;> rfl

theorem FS.lookup_rename_frame {fs : FS} {src dst q : Path}
    (hs : ¬ src <+: q) (hd : ¬ dst <+: q) :
    FS.lookup (FS.rename fs src dst) q = FS.lookup fs q := by
  unfold FS.rename
  rw [FS.lookup_append]
  have h1 : FS.lookup ((FS.subtree fs src).map (fun e => (dst ++ e.1, e.2))) q = none := by
    unfold FS.lookup
    rw [Option.map_eq_none', List.find?_eq_none]
    intro e he hbeq
    rw [List.mem_map] at he
    obtain ⟨a, _, ha⟩ := he
    have heq : e.1 = q := by simpa using hbeq
    exact hd ⟨a.1, by rw [← heq, ← ha]⟩
  rw [h1, Option.none_or]
  exact FS.lookup_eraseTree_of_not_pre hs

theorem FS.lookup_rename_dst {fs : FS} {src dst : Path}
    (hfresh : FS.pathExists fs dst = false) (r : Path) :
    FS.lookup (FS.rename fs src dst) (dst ++ r) = FS.lookup fs (src ++ r) := by
  unfold FS.rename
  rw [FS.lookup_append]
  have h2 : FS.lookup (FS.eraseTree fs src) (dst ++ r) = none := by
    unfold FS.lookup FS.eraseTree
    rw [Option.map_eq_none', List.find?_eq_none]
    intro e he hbeq
    rw [List.mem_filter] at he
    have heq : e.1 = dst ++ r := by simpa using hbeq
    have : FS.pathExists fs dst = true :=
      FS.pathExists_iff.mpr ⟨e, he.1, ⟨r, heq.symm⟩⟩
    rw [this] at hfresh
    exact Bool.true_eq_false.mp hfresh
  have h1 : FS.lookup ((FS.subtree fs src).map (fun e => (dst ++ e.1, e.2))) (dst ++ r) =
      FS.lookup fs (src ++ r) := by
    rw [← FS.find?_subtree fs src r]
    unfold FS.lookup
    rw [FS.find?_map_key]
    cases (FS.subtree fs src).find? (fun e => e.1 == r) <;> rfl
  rw [h1, h2]
  cases hres : FS.lookup fs (src ++ r) <;> rfl

theorem FS.move_of_fresh {fs : FS} {src dst : Path}
    (hfresh : FS.pathExists fs dst = false) :
    FS.move fs src dst = FS.rename fs src dst := by
  unfold FS.move
  rw [hfresh]
  rfl

/-- Writing entries one after the other leaves lookups at other keys
unchanged.  The fold shape matches FS.copytree after List.foldl_map. -/
theorem FS.lookup_foldl_set_frame (es : List (Path × Node)) (fs : FS) {q : Path}
    (h : ∀ e ∈ es, e.1 ≠ q) :
    FS.lookup (es.foldl (fun acc e => FS.set acc e.1 e.2) fs) q = FS.lookup fs q := by
  induction es generalizing fs with
  | nil => rfl
  | cons e es ih =>
    rw [List.foldl_cons, ih _ (fun x hx => h x (List.mem_cons_of_mem e hx)),
      FS.lookup_set_ne _ _ (Ne.symm (h e (List.mem_cons_self e es)))]

theorem FS.lookup_foldl_set_of_nodup (es : List (Path × Node)) (fs : FS) (q : Path)
    (h : (es.map Prod.fst).Nodup) :
    FS.lookup (es.foldl (fun acc e => FS.set acc e.1 e.2) fs) q =
      match es.find? (fun e => e.1 == q) with
      | some e => some e.2
      | none => FS.lookup fs q := by
  induction es generalizing fs with
  | nil => rfl
  | cons e es ih =>
    rw [List.map_cons, List.nodup_cons] at h
    by_cases hk : e.1 = q
    · subst hk
      rw [List.foldl_cons, List.find?_cons_of_pos _ (by simp)]
      rw [FS.lookup_foldl_set_frame es _
        (fun x hx hxq => h.1 (by rw [← hxq]; exact List.mem_map_of_mem Prod.fst hx))]
      exact FS.lookup_set_self fs e.1 e.2
    · rw [List.foldl_cons, List.find?_cons_of_neg _ (by simpa using hk), ih _ h.2,
        FS.lookup_set_ne _ _ (Ne.symm hk)]

theorem FS.copytree_eq_foldl (fs : FS) (src dst : Path) :
    FS.copytree fs src dst =
      ((FS.subtree fs src).map (fun e => (dst ++ e.1, e.2))).foldl
        (fun acc e => FS.set acc e.1 e.2) fs := by
  unfold FS.copytree
  rw [List.foldl_map]

theorem FS.lookup_copytree_frame {fs : FS} {src dst q : Path}
    (hd : ¬ dst <+: q) :
    FS.lookup (FS.copytree fs src dst) q = FS.lookup fs q := by
  rw [FS.copytree_eq_foldl, FS.lookup_foldl_set_frame]
  intro e he hq
  rw [List.mem_map] at he
  obtain ⟨a, _, ha⟩ := he
  exact hd ⟨a.1, by rw [← hq, ← ha]⟩

/-- The keys of the subtree of a filesystem with distinct paths are
distinct. -/
theorem FS.subtree_keys_nodup {fs : FS} (h : FS.NodupPaths fs) (src : Path) :
    ((FS.subtree fs src).map Prod.fst).Nodup := by
  unfold FS.NodupPaths at h
  unfold FS.subtree
  induction fs with
  | nil => simp
  | cons e fs ih =>
    rw [List.map_cons, List.nodup_cons] at h
    rw [List.filterMap_cons]
    by_cases hp : List.isPrefixOf src e.1 = true
    · simp only [hp, if_true]
      rw [List.map_cons, List.nodup_cons]
      refine ⟨?_, ih h.2⟩
      intro hmem
      rw [List.mem_map] at hmem
      obtain ⟨a, ha, hval⟩ := hmem
      rw [List.mem_filterMap] at ha
      obtain ⟨x, hx, hxa⟩ := ha
      by_cases hpx : List.isPrefixOf src x.1 = true
      · rw [if_pos hpx] at hxa
        have hax : a = (x.1.drop src.length, x.2) := by
          injection hxa with h1
          exact h1.symm
        have hkey : x.1.drop src.length = e.1.drop src.length := by
          rw [hax] at hval
          exact hval
        have hxe : x.1 = e.1 := by
          obtain ⟨t, ht⟩ := List.isPrefixOf_iff_prefix.mp hpx
          obtain ⟨u, hu⟩ := List.isPrefixOf_iff_prefix.mp hp
          have ht2 : x.1.drop src.length = t := by rw [← ht]; simp
          have hu2 : e.1.drop src.length = u := by rw [← hu]; simp
          have htu : t = u := by rw [← ht2, hkey, hu2]
          rw [← ht, ← hu, htu]
        exact h.1 (hxe ▸ List.mem_map_of_mem Prod.fst hx)
      · rw [if_neg hpx] at hxa
        exact Option.noConfusion hxa
    · rw [if_neg hp]
      exact ih h.2

theorem FS.lookup_copytree {fs : FS} (h : FS.NodupPaths fs) (src dst r : Path) :
    FS.lookup (FS.copytree fs src dst) (dst ++ r) =
      match FS.lookup fs (src ++ r) with
      | some n => some n
      | none => FS.lookup fs (dst ++ r) := by
  rw [FS.copytree_eq_foldl, FS.lookup_foldl_set_of_nodup]
  · rw [FS.find?_map_key, ← FS.find?_subtree fs src r]
    cases (FS.subtree fs src).find? (fun e => e.1 == r) <;> rfl
  · rw [List.map_map]
    have : (Prod.fst ∘ fun e : Path × Node => (dst ++ e.1, e.2)) =
        (fun p : Path => dst ++ p) ∘ Prod.fst := rfl
    rw [this, ← List.map_map]
    refine List.Nodup.map ?_ (FS.subtree_keys_nodup h src)
    intro a b hab
    exact List.append_cancel_left hab

/-- mkdirp writes only along the chain of p: lookups elsewhere are
unchanged. -/
theorem FS.lookup_mkdirp_frame {fs : FS} {p q : Path} (h : ¬ q <+: p) :
    FS.lookup (FS.mkdirp fs p) q = FS.lookup fs q := by
  unfold FS.mkdirp
  have hgen : ∀ (l : List Nat) (acc : FS),
      FS.lookup (l.foldl (fun acc i =>
        let w := p.take (i + 1)
        if FS.pathExists acc w then acc else FS.set acc w Node.dir) acc) q =
        FS.lookup acc q := by
    intro l
    induction l with
    | nil => intro acc; rfl
    | cons i l ih =>
      intro acc
      rw [List.foldl_cons, ih]
      by_cases hex : FS.pathExists acc (p.take (i + 1)) = true
      · simp [hex]
      · simp only [Bool.not_eq_true] at hex
        simp only [hex]
        refine FS.lookup_set_ne acc Node.dir ?_
        intro hc
        exact h (hc ▸ List.take_prefix (i + 1) p)
  exact hgen _ fs

/-- mkdirp never destroys an existing entry. -/
theorem FS.lookup_mkdirp_of_some {fs : FS} {p q : Path} {n : Node}
    (h : FS.lookup fs q = some n) :
    FS.lookup (FS.mkdirp fs p) q = some n := by
  unfold FS.mkdirp
  have hgen : ∀ (l : List Nat) (acc : FS), FS.lookup acc q = some n →
      FS.lookup (l.foldl (fun acc i =>
        let w := p.take (i + 1)
        if FS.pathExists acc w then acc else FS.set acc w Node.dir) acc) q = some n := by
    intro l
    induction l with
    | nil => intro acc hacc; exact hacc
    | cons i l ih =>
      intro acc hacc
      rw [List.foldl_cons]
      refine ih _ ?_
      by_cases hex : FS.pathExists acc (p.take (i + 1)) = true
      · simpa [hex] using hacc
      · simp only [Bool.not_eq_true] at hex
        simp only [hex, Bool.false_eq_true, if_false]
        rw [FS.lookup_set_ne acc Node.dir ?_]
        · exact hacc
        · intro hc
          subst hc
          rw [FS.pathExists_of_lookup hacc] at hex
          exact Bool.true_eq_false.mp hex
  exact hgen _ fs h

/-- The top-level copy loop writes only below dst. -/
theorem FS.lookup_copyChildren_frame {fs0 : FS} {src dst q : Path}
    (hd : ¬ dst <+: q) :
    FS.lookup (FS.copyChildren fs0 src dst).1 q = FS.lookup fs0 q := by
  unfold FS.copyChildren
  have hgen : ∀ (l : List (String × Node)) (acc : FS × Nat × Nat),
      FS.lookup (l.foldl (fun acc c =>
        match c.2 with
        | Node.file s => (FS.set acc.1 (dst ++ [c.1]) (Node.file s), acc.2.1 + 1, acc.2.2)
        | Node.dir => (FS.copytree acc.1 (src ++ [c.1]) (dst ++ [c.1]), acc.2.1, acc.2.2 + 1)) acc).1 q =
      FS.lookup acc.1 q := by
    intro l
    induction l with
    | nil => intro acc; rfl
    | cons c l ih =>
      intro acc
      rw [List.foldl_cons, ih]
      cases hc : c.2 with
      | file s =>
        refine FS.lookup_set_ne acc.1 (Node.file s) ?_
        intro hq
        exact hd ⟨[c.1], hq.symm⟩
      | dir =>
        refine FS.lookup_copytree_frame ?_
        intro hpre
        obtain ⟨t, ht⟩ := hpre
        exact hd ⟨c.1 :: t, by rw [← ht]; simp⟩
  exact hgen _ (fs0, 0, 0)

/-! ## Lemmas about backup naming -/

theorem stringDataInj {a b : String} (h : a.data = b.data) : a = b :=
  congrArg String.mk h

theorem stringAppendCancelLeft {s a b : String} (h : s ++ a = s ++ b) : a = b := by
  have hd : s.data ++ a.data = s.data ++ b.data := congrArg String.data h
  exact stringDataInj (List.append_cancel_left hd)

theorem backupCand_injective (base : String) : Function.Injective (backupCand base) := by
  intro a b h
  have hlen : ∀ n : Nat, (base ++ "_" ++ decStr n).length = base.length + 1 + (decStr n).length := by
    intro n
    simp only [String.length_append]
    have h1 : "_".length = 1 := rfl
    omega
  have hpos : ∀ n : Nat, 0 < (decStr n).length := by
    intro n
    cases hd : (decStr n).data with
    | nil => exact absurd hd (decChars_ne_nil n n)
    | cons c l =>
      have : (decStr n).length = (decStr n).data.length := rfl
      rw [this, hd]
      simp
  match a, b with
  | 0, 0 => rfl
  | 0, k+1 =>
    exfalso
    have := congrArg String.length h
    rw [backupCand, backupCand, hlen] at this
    have := hpos (k + 1)
    omega
  | k+1, 0 =>
    exfalso
    have := congrArg String.length h
    rw [backupCand, backupCand, hlen] at this
    have := hpos (k + 1)
    omega
  | k+1, j+1 =>
    have hd : decStr (k + 1) = decStr (j + 1) := stringAppendCancelLeft h
    have := decStr_injective hd
    omega

theorem bakCand_injective (base : String) : Function.Injective (bakCand base) := by
  intro a b h
  have hd : decStr (a + 1) = decStr (b + 1) := stringAppendCancelLeft h
  have := decStr_injective hd
  omega

theorem backupCandSeq_injective (fs : FS) (target : Path) (art : Option String) :
    Function.Injective (backupCandSeq fs target art) := by
  unfold backupCandSeq
  cases get_current_version fs target with
  | some v => exact backupCand_injective _
  | none =>
    cases art with
    | none => exact bakCand_injective _
    | some a =>
      by_cases ha : a = ""
      · simp only [ha, if_true]
        exact bakCand_injective _
      · simp only [ha, if_false]
        exact backupCand_injective _

theorem firstFree_spec (taken : Nat → Bool) :
    ∀ (fuel k0 : Nat), (∃ j, k0 ≤ j ∧ j < k0 + fuel ∧ taken j = false) →
      taken (firstFree taken fuel k0) = false ∧
      k0 ≤ firstFree taken fuel k0 ∧
      ∀ j, k0 ≤ j → j < firstFree taken fuel k0 → taken j = true := by
  intro fuel
  induction fuel with
  | zero =>
    intro k0 h
    obtain ⟨j, hj1, hj2, _⟩ := h
    omega
  | succ f ih =>
    intro k0 h
    have hstep : firstFree taken (f + 1) k0 =
        if taken k0 then firstFree taken f (k0 + 1) else k0 := rfl
    cases ht : taken k0 with
    | false =>
      rw [hstep, ht]
      simp only [Bool.false_eq_true, if_false]
      exact ⟨ht, Nat.le_refl _, fun j hj hlt => by omega⟩
    | true =>
      have h2 : ∃ j, k0 + 1 ≤ j ∧ j < (k0 + 1) + f ∧ taken j = false := by
        obtain ⟨j, hj1, hj2, hj3⟩ := h
        have hne : j ≠ k0 := by
          intro hc
          rw [hc, ht] at hj3
          exact Bool.noConfusion hj3
        exact ⟨j, by omega, by omega, hj3⟩
      obtain ⟨h1', h2', h3'⟩ := ih (k0 + 1) h2
      rw [hstep, ht, if_pos rfl]
      refine ⟨h1', by omega, fun j hj hlt => ?_⟩
      by_cases hk : j = k0
      · rw [hk]
        exact ht
      · exact h3' j (by omega) hlt

/-- Pigeonhole: among fs.length + 1 distinct sibling names, at least one
is completely absent from the filesystem. -/
theorem exists_free_candidate (fs : FS) (parent : Path) (mk : Nat → String)
    (hinj : Function.Injective mk) :
    ∃ k, k < fs.length + 1 ∧ FS.pathExists fs (parent ++ [mk k]) = false := by
  by_contra hcon
  push_neg at hcon
  have hall : ∀ k, k < fs.length + 1 → FS.pathExists fs (parent ++ [mk k]) = true := by
    intro k hk
    cases hp : FS.pathExists fs (parent ++ [mk k]) with
    | true => rfl
    | false => exact absurd hp (hcon k hk)
  have hch : ∀ k : Nat, k < fs.length + 1 → ∃ e ∈ fs, (parent ++ [mk k]) <+: e.1 := by
    intro k hk
    exact FS.pathExists_iff.mp (hall k hk)
  classical
  let pick : Nat → Path × Node := fun k =>
    if hk : k < fs.length + 1 then (hch k hk).choose else (([], Node.dir) : Path × Node)
  have hpick : ∀ k, k < fs.length + 1 →
      pick k ∈ fs ∧ (parent ++ [mk k]) <+: (pick k).1 := by
    intro k hk
    have := (hch k hk).choose_spec
    simp only [pick, dif_pos hk]
    exact this
  have hcard : fs.toFinset.card < (Finset.range (fs.length + 1)).card := by
    rw [Finset.card_range]
    exact Nat.lt_succ_of_le fs.toFinset_card_le
  have hmaps : ∀ k ∈ Finset.range (fs.length + 1), pick k ∈ fs.toFinset := by
    intro k hk
    rw [Finset.mem_range] at hk
    rw [List.mem_toFinset]
    exact (hpick k hk).1
  obtain ⟨x, hx, y, hy, hxy, hfeq⟩ :=
    Finset.exists_ne_map_eq_of_card_lt_of_maps_to hcard hmaps
  rw [Finset.mem_range] at hx hy
  have hpx := (hpick x hx).2
  have hpy := (hpick y hy).2
  rw [hfeq] at hpx
  have hlen : (parent ++ [mk x]).length = (parent ++ [mk y]).length := by
    simp
  have heq : parent ++ [mk x] = parent ++ [mk y] := by
    rcases List.prefix_of_prefix_length_le hpx hpy (Nat.le_of_eq hlen) with hple
    exact hple.eq_of_length hlen
  have : mk x = mk y := by
    have := List.append_cancel_left heq
    injection this
  exact hxy (hinj this)

/-- The full functional specification of create_backup_name: the result
is a sibling of the target, absent from the filesystem, and is the first
free candidate of the branch-appropriate naming sequence. -/
theorem create_backup_name_spec (fs : FS) (target : Path) (art : Option String) :
    FS.pathExists fs (create_backup_name fs target art) = false ∧
    (create_backup_name fs target art).dropLast = target.dropLast ∧
    ∃ k, create_backup_name fs target art =
        target.dropLast ++ [backupCandSeq fs target art k] ∧
      ∀ j, j < k →
        FS.pathExists fs (target.dropLast ++ [backupCandSeq fs target art j]) = true := by
  have hex := exists_free_candidate fs target.dropLast (backupCandSeq fs target art)
    (backupCandSeq_injective fs target art)
  obtain ⟨k, hk, hfree⟩ := hex
  have hspec := firstFree_spec
    (fun k => FS.pathExists fs (target.dropLast ++ [backupCandSeq fs target art k]))
    (fs.length + 1) 0 ⟨k, Nat.zero_le _, by omega, hfree⟩
  obtain ⟨h1, _, h3⟩ := hspec
  constructor
  · exact h1
  constructor
  · unfold create_backup_name
    exact List.dropLast_concat ..
  · exact ⟨_, rfl, fun j hj => h3 j (Nat.zero_le _) hj⟩

/-! ## Separation helpers and step-level frame lemmas -/

theorem decStr_length_pos (n : Nat) : 0 < (decStr n).length := by
  cases hd : (decStr n).data with
  | nil => exact absurd hd (decChars_ne_nil n n)
  | cons c l =>
    have hlen : (decStr n).length = (decStr n).data.length := rfl
    rw [hlen, hd]
    simp

theorem pathLast_concat (l : Path) (s : String) : pathLast (l ++ [s]) = s := by
  unfold pathLast
  exact List.getLastD_concat _ _ _

theorem not_pre_of_sep_left {a b : Path} (hab : ¬ a <+: b) (hba : ¬ b <+: a)
    (rest : Path) : ¬ a <+: b ++ rest := by
  intro h
  have hb : b <+: b ++ rest := List.prefix_append b rest
  rcases Nat.le_total a.length b.length with hle | hle
  · exact hab (List.prefix_of_prefix_length_le h hb hle)
  · exact hba (List.prefix_of_prefix_length_le hb h hle)

theorem append_not_pre {a b : Path} (h : ¬ a <+: b) (rest : Path) : ¬ (a ++ rest) <+: b :=
  fun hc => h ((List.prefix_append a rest).trans hc)

/-- Two distinct siblings (same parent, different final name) are
separated. -/
theorem sep_of_siblings {p q : Path} (hp : p ≠ []) (hq : q ≠ [])
    (hdl : p.dropLast = q.dropLast) (hlast : pathLast p ≠ pathLast q) :
    pathsSeparated p q := by
  have hpd := List.dropLast_concat_getLast hp
  have hqd := List.dropLast_concat_getLast hq
  have hlen : p.length = q.length := by
    rw [← hpd, ← hqd, hdl]
    simp
  have hne : p ≠ q := by
    intro hc
    rw [hc] at hlast
    exact hlast rfl
  constructor
  · intro h
    exact hne (h.eq_of_length hlen)
  · intro h
    exact hne (h.eq_of_length hlen.symm).symm

theorem backupCandSeq_length_gt (fs : FS) (target : Path) (art : Option String) (k : Nat) :
    (pathLast target).length < (backupCandSeq fs target art k).length := by
  have hbak : ∀ (b : String) (k : Nat),
      b.length + 4 ≤ (bakCand (b ++ "_bak") k).length := by
    intro b k
    unfold bakCand
    have := decStr_length_pos (k + 1)
    simp only [String.length_append]
    have h4 : "_bak".length = 4 := rfl
    omega
  have hbackup : ∀ (b v : String) (k : Nat),
      b.length + 8 ≤ (backupCand (b ++ "_backup_" ++ v) k).length := by
    intro b v k
    cases k with
    | zero =>
      unfold backupCand
      simp only [String.length_append]
      have h8 : "_backup_".length = 8 := rfl
      omega
    | succ j =>
      unfold backupCand
      have := decStr_length_pos (j + 1)
      simp only [String.length_append]
      have h8 : "_backup_".length = 8 := rfl
      have h1 : "_".length = 1 := rfl
      omega
  unfold backupCandSeq
  cases hv : get_current_version fs target with
  | some v =>
    dsimp only
    have := hbackup (pathLast target) v k
    omega
  | none =>
    cases art with
    | none =>
      dsimp only
      have := hbak (pathLast target) k
      omega
    | some a =>
      dsimp only
      by_cases ha : a = ""
      · simp only [ha, if_true]
        have := hbak (pathLast target) k
        omega
      · simp only [ha, if_false]
        have := hbackup (pathLast target) a k
        omega

/-- The backup name created for a tree never collides with the tree
itself: they are distinct siblings. -/
theorem create_backup_name_sep (fs : FS) (target : Path) (art : Option String)
    (ht : target ≠ []) : pathsSeparated (create_backup_name fs target art) target := by
  obtain ⟨-, hdl, k, hk, -⟩ := create_backup_name_spec fs target art
  refine sep_of_siblings ?_ ht hdl ?_
  · rw [hk]
    intro hc
    have := congrArg List.length hc
    simp at this
  · rw [hk, pathLast_concat]
    intro hc
    have := backupCandSeq_length_gt fs target art k
    rw [hc] at this
    omega

theorem step_restore_a_frame (fs : FS) (sd : Option Path) (dbc : Option String) {q : Path}
    (hsd : ∀ d, sd = some d → ¬ d <+: q ∧ ¬ q <+: d) :
    FS.lookup (step_restore_a fs sd dbc).1 q = FS.lookup fs q := by
  unfold step_restore_a
  cases sd with
  | none => cases dbc <;> rfl
  | some d =>
    cases dbc with
    | none => rfl
    | some nm =>
      obtain ⟨h1, h2⟩ := hsd d rfl
      by_cases hex : FS.pathExists fs (d.dropLast ++ [nm]) = true
      · simp only [hex, if_true]
        rw [FS.lookup_copyChildren_frame h1, FS.lookup_mkdirp_frame h2]
      · simp only [Bool.not_eq_true] at hex
        simp only [hex, Bool.false_eq_true, if_false]

theorem step_restore_b_frame (fs : FS) (target : Path) (sd : Option Path)
    (bc : Option String) {q : Path}
    (hsd : ∀ d, sd = some d → ¬ d <+: q ∧ ¬ q <+: d)
    (ht : ¬ target <+: q) :
    FS.lookup (step_restore_b fs target sd bc).1 q = FS.lookup fs q := by
  unfold step_restore_b
  cases bc with
  | none => rfl
  | some nm =>
    by_cases hex : FS.pathExists fs ((target.dropLast ++ [nm]) ++ ["ServerData"]) = true
    · simp only [hex, if_true]
      cases sd with
      | none =>
        refine FS.lookup_copytree_frame ?_
        intro hc
        exact ht ((List.prefix_append target ["ServerData"]).trans hc)
      | some d =>
        obtain ⟨h1, h2⟩ := hsd d rfl
        rw [FS.lookup_copyChildren_frame h1, FS.lookup_mkdirp_frame h2]
    · simp only [Bool.not_eq_true] at hex
      simp only [hex, Bool.false_eq_true, if_false]

theorem step_restore_c_frame (fs : FS) (source target : Path) (sd : Option Path)
    (rf rd : Nat) {q : Path}
    (hsd : ∀ d, sd = some d → ¬ d <+: q ∧ ¬ q <+: d)
    (ht : ¬ target <+: q) :
    FS.lookup (step_restore_c fs source target sd rf rd).1 q = FS.lookup fs q := by
  unfold step_restore_c
  by_cases hz : (decide (rf = 0) && decide (rd = 0)) = true
  · rw [if_pos hz]
    by_cases hex : FS.pathExists fs (source ++ ["server-data"]) = true
    · simp only [hex, if_true]
      cases sd with
      | none =>
        refine FS.lookup_copytree_frame ?_
        intro hc
        exact ht ((List.prefix_append target ["ServerData"]).trans hc)
      | some d =>
        obtain ⟨h1, h2⟩ := hsd d rfl
        rw [FS.lookup_copyChildren_frame h1, FS.lookup_mkdirp_frame h2]
    · simp only [Bool.not_eq_true] at hex
      simp only [hex, Bool.false_eq_true, if_false]
  · rw [if_neg hz]

theorem create_version_file_frame (fs : FS) (target : Path) (a : String) (wf : Bool)
    {q : Path} (ht : ¬ target <+: q) :
    FS.lookup (create_version_file fs target a wf) q = FS.lookup fs q := by
  unfold create_version_file
  cases wf with
  | true => rfl
  | false =>
    simp only [Bool.false_eq_true, if_false]
    refine FS.lookup_set_ne fs _ ?_
    intro hc
    exact ht ⟨["version.txt"], hc.symm⟩

/-! ## Pipeline decomposition of copy_server_files -/

theorem step_backup_target_ok {fs : FS} {target : Path} {art : Option String} {f : Bool}
    {fs1 : FS} {bc : Option String}
    (h : step_backup_target fs target art f = (fs1, Except.ok bc)) :
    (fs1 = fs ∧ bc = none ∧
     (FS.pathExists fs target && !(FS.childrenPairs fs target).isEmpty) = false) ∨
    (fs1 = FS.rename fs target (create_backup_name fs target art) ∧
     bc = some (pathLast (create_backup_name fs target art)) ∧
     FS.pathExists fs target = true ∧
     (FS.childrenPairs fs target).isEmpty = false) := by
  unfold step_backup_target at h
  by_cases hcond :
      (FS.pathExists fs target && !(FS.childrenPairs fs target).isEmpty) = true
  · rw [if_pos hcond] at h
    cases hf : f with
    | true =>
      rw [hf] at h
      simp at h
    | false =>
      rw [hf] at h
      simp only [Bool.false_eq_true, if_false] at h
      have hfresh : FS.pathExists fs (create_backup_name fs target art) = false :=
        (create_backup_name_spec fs target art).1
      rw [FS.move_of_fresh hfresh] at h
      injection h with h1 h2
      injection h2 with h2
      rw [Bool.and_eq_true] at hcond
      refine Or.inr ⟨h1.symm, h2.symm, hcond.1, ?_⟩
      have := hcond.2
      simp only [Bool.not_eq_eq_eq_not, Bool.not_true] at this
      exact this
  · rw [if_neg hcond] at h
    injection h with h1 h2
    injection h2 with h2
    exact Or.inl ⟨h1.symm, h2.symm, by simpa using hcond⟩

theorem step_backup_target_err {fs : FS} {target : Path} {art : Option String} {f : Bool}
    {fs1 : FS} (h : step_backup_target fs target art f = (fs1, Except.error ())) :
    fs1 = fs := by
  unfold step_backup_target at h
  by_cases hcond :
      (FS.pathExists fs target && !(FS.childrenPairs fs target).isEmpty) = true
  · rw [if_pos hcond] at h
    cases hf : f with
    | true =>
      rw [hf] at h
      simp only [if_true] at h
      injection h with h1 h2
      exact h1.symm
    | false =>
      rw [hf] at h
      simp only [Bool.false_eq_true, if_false] at h
      injection h with h1 h2
      exact absurd h2 (by simp)
  · rw [if_neg hcond] at h
    injection h with h1 h2
    exact absurd h2 (by simp)

theorem step_backup_data_ok {fs : FS} {sd : Option Path} {art : Option String} {f : Bool}
    {fs2 : FS} {dbc : Option String}
    (h : step_backup_data fs sd art f = (fs2, Except.ok dbc)) :
    (fs2 = fs ∧ dbc = none) ∨
    (∃ d, sd = some d ∧
      fs2 = FS.rename fs d (create_backup_name fs d art) ∧
      dbc = some (pathLast (create_backup_name fs d art)) ∧
      FS.pathExists fs d = true) := by
  unfold step_backup_data at h
  cases sd with
  | none =>
    dsimp only at h
    injection h with h1 h2
    injection h2 with h2
    exact Or.inl ⟨h1.symm, h2.symm⟩
  | some d =>
    dsimp only at h
    by_cases hcond : (FS.pathExists fs d && !(FS.childrenPairs fs d).isEmpty) = true
    · rw [if_pos hcond] at h
      cases hf : f with
      | true =>
        rw [hf] at h
        simp at h
      | false =>
        rw [hf] at h
        simp only [Bool.false_eq_true, if_false] at h
        have hfresh : FS.pathExists fs (create_backup_name fs d art) = false :=
          (create_backup_name_spec fs d art).1
        rw [FS.move_of_fresh hfresh] at h
        injection h with h1 h2
        injection h2 with h2
        rw [Bool.and_eq_true] at hcond
        exact Or.inr ⟨d, rfl, h1.symm, h2.symm, hcond.1⟩
    · rw [if_neg hcond] at h
      injection h with h1 h2
      injection h2 with h2
      exact Or.inl ⟨h1.symm, h2.symm⟩

theorem step_backup_data_err {fs : FS} {sd : Option Path} {art : Option String} {f : Bool}
    {fs2 : FS} (h : step_backup_data fs sd art f = (fs2, Except.error ())) :
    fs2 = fs := by
  unfold step_backup_data at h
  cases sd with
  | none =>
    dsimp only at h
    injection h with h1 h2
    exact absurd h2 (by simp)
  | some d =>
    dsimp only at h
    by_cases hcond : (FS.pathExists fs d && !(FS.childrenPairs fs d).isEmpty) = true
    · rw [if_pos hcond] at h
      cases hf : f with
      | true =>
        rw [hf] at h
        simp only [if_true] at h
        injection h with h1 h2
        exact h1.symm
      | false =>
        rw [hf] at h
        simp only [Bool.false_eq_true, if_false] at h
        injection h with h1 h2
        exact absurd h2 (by simp)
    · rw [if_neg hcond] at h
      injection h with h1 h2
      exact absurd h2 (by simp)

theorem step_install_ok {fs : FS} {source target : Path} {f : Bool} {fs3 : FS}
    {c : Nat × Nat} (h : step_install fs source target f = (fs3, Except.ok c)) :
    f = false ∧ fs3 = (FS.copyChildren (FS.mkdirp fs target) source target).1 := by
  unfold step_install at h
  cases hf : f with
  | true =>
    rw [hf] at h
    simp at h
  | false =>
    rw [hf] at h
    simp only [Bool.false_eq_true, if_false] at h
    injection h with h1 h2
    exact ⟨rfl, h1.symm⟩

theorem step_install_err {fs : FS} {source target : Path} {f : Bool} {fs3 : FS}
    (h : step_install fs source target f = (fs3, Except.error ())) :
    fs3 = FS.mkdirp fs target := by
  unfold step_install at h
  cases hf : f with
  | true =>
    rw [hf] at h
    simp only [if_true] at h
    injection h with h1 h2
    exact h1.symm
  | false =>
    rw [hf] at h
    simp only [Bool.false_eq_true, if_false] at h
    injection h with h1 h2
    exact absurd h2 (by simp)

theorem copy_server_files_ok {fs0 : FS} {source target : Path} {sd : Option Path}
    {art : Option String} {fl : Faults} {fsr : FS} {r : CopyResult}
    (h : copy_server_files fs0 source target sd art fl = (fsr, Except.ok r)) :
    ∃ fs1 bc fs2 dbc fs3 cf cd,
      step_backup_target fs0 target art fl.backupMoveFails = (fs1, Except.ok bc) ∧
      step_backup_data fs1 sd art fl.dataMoveFails = (fs2, Except.ok dbc) ∧
      step_install fs2 source target fl.installFails = (fs3, Except.ok (cf, cd)) ∧
      fl.restoreFails = false ∧
      fsr = (if truthyStr art then
          create_version_file
            (step_restore_c (step_restore_b (step_restore_a fs3 sd dbc).1 target sd bc).1
              source target sd
              ((step_restore_a fs3 sd dbc).2.1 +
                (step_restore_b (step_restore_a fs3 sd dbc).1 target sd bc).2.1)
              ((step_restore_a fs3 sd dbc).2.2 +
                (step_restore_b (step_restore_a fs3 sd dbc).1 target sd bc).2.2.1)).1
            target (art.getD "") fl.versionWriteFails
        else
          (step_restore_c (step_restore_b (step_restore_a fs3 sd dbc).1 target sd bc).1
            source target sd
            ((step_restore_a fs3 sd dbc).2.1 +
              (step_restore_b (step_restore_a fs3 sd dbc).1 target sd bc).2.1)
            ((step_restore_a fs3 sd dbc).2.2 +
              (step_restore_b (step_restore_a fs3 sd dbc).1 target sd bc).2.2.1)).1) ∧
      r = { backup_created := bc, data_backup_created := dbc,
            copied_files := cf, copied_dirs := cd,
            tierA_files := (step_restore_a fs3 sd dbc).2.1,
            tierA_dirs := (step_restore_a fs3 sd dbc).2.2,
            tierB_files := (step_restore_b (step_restore_a fs3 sd dbc).1 target sd bc).2.1,
            tierB_dirs := (step_restore_b (step_restore_a fs3 sd dbc).1 target sd bc).2.2.1,
            tierB_ran := (step_restore_b (step_restore_a fs3 sd dbc).1 target sd bc).2.2.2,
            tierC_files := (step_restore_c
              (step_restore_b (step_restore_a fs3 sd dbc).1 target sd bc).1 source target sd
              ((step_restore_a fs3 sd dbc).2.1 +
                (step_restore_b (step_restore_a fs3 sd dbc).1 target sd bc).2.1)
              ((step_restore_a fs3 sd dbc).2.2 +
                (step_restore_b (step_restore_a fs3 sd dbc).1 target sd bc).2.2.1)).2.1,
            tierC_dirs := (step_restore_c
              (step_restore_b (step_restore_a fs3 sd dbc).1 target sd bc).1 source target sd
              ((step_restore_a fs3 sd dbc).2.1 +
                (step_restore_b (step_restore_a fs3 sd dbc).1 target sd bc).2.1)
              ((step_restore_a fs3 sd dbc).2.2 +
                (step_restore_b (step_restore_a fs3 sd dbc).1 target sd bc).2.2.1)).2.2.1,
            tierC_ran := (step_restore_c
              (step_restore_b (step_restore_a fs3 sd dbc).1 target sd bc).1 source target sd
              ((step_restore_a fs3 sd dbc).2.1 +
                (step_restore_b (step_restore_a fs3 sd dbc).1 target sd bc).2.1)
              ((step_restore_a fs3 sd dbc).2.2 +
                (step_restore_b (step_restore_a fs3 sd dbc).1 target sd bc).2.2.1)).2.2.2 } := by
  unfold copy_server_files at h
  split at h
  · injection h with h1 h2
    exact absurd h2 (by simp)
  · rename_i fs1 bc heq1
    split at h
    · injection h with h1 h2
      exact absurd h2 (by simp)
    · rename_i fs2 dbc heq2
      split at h
      · injection h with h1 h2
        exact absurd h2 (by simp)
      · rename_i fs3 cf cd heq3
        split at h
        · injection h with h1 h2
          exact absurd h2 (by simp)
        · rename_i hrf
          injection h with h1 h2
          injection h2 with h2
          refine ⟨fs1, bc, fs2, dbc, fs3, cf, cd, heq1, heq2, heq3, ?_, h1.symm, h2.symm⟩
          simpa using hrf

theorem copy_server_files_err {fs0 : FS} {source target : Path} {sd : Option Path}
    {art : Option String} {fl : Faults} {fsr : FS}
    (h : copy_server_files fs0 source target sd art fl = (fsr, Except.error ())) :
    step_backup_target fs0 target art fl.backupMoveFails = (fsr, Except.error ()) ∨
    (∃ fs1 bc,
      step_backup_target fs0 target art fl.backupMoveFails = (fs1, Except.ok bc) ∧
      step_backup_data fs1 sd art fl.dataMoveFails = (fsr, Except.error ())) ∨
    (∃ fs1 bc fs2 dbc,
      step_backup_target fs0 target art fl.backupMoveFails = (fs1, Except.ok bc) ∧
      step_backup_data fs1 sd art fl.dataMoveFails = (fs2, Except.ok dbc) ∧
      step_install fs2 source target fl.installFails = (fsr, Except.error ())) ∨
    (∃ fs1 bc fs2 dbc cf cd,
      step_backup_target fs0 target art fl.backupMoveFails = (fs1, Except.ok bc) ∧
      step_backup_data fs1 sd art fl.dataMoveFails = (fs2, Except.ok dbc) ∧
      step_install fs2 source target fl.installFails = (fsr, Except.ok (cf, cd)) ∧
      fl.restoreFails = true) := by
  unfold copy_server_files at h
  split at h
  · rename_i fs1 u heq1
    injection h with h1 h2
    subst h1
    cases u
    exact Or.inl heq1
  · rename_i fs1 bc heq1
    split at h
    · rename_i fs2 u heq2
      injection h with h1 h2
      subst h1
      cases u
      exact Or.inr (Or.inl ⟨fs1, bc, heq1, heq2⟩)
    · rename_i fs2 dbc heq2
      split at h
      · rename_i fs3 u heq3
        injection h with h1 h2
        subst h1
        cases u
        exact Or.inr (Or.inr (Or.inl ⟨fs1, bc, fs2, dbc, heq1, heq2, heq3⟩))
      · rename_i fs3 cf cd heq3
        split at h
        · rename_i hrf
          injection h with h1 h2
          subst h1
          exact Or.inr (Or.inr (Or.inr ⟨fs1, bc, fs2, dbc, cf, cd, heq1, heq2, heq3, hrf⟩))
        · injection h with h1 h2
          exact absurd h2 (by simp)

theorem FS.lookup_none_of_no_tree {fs : FS} {p : Path}
    (h : FS.pathExists fs p = false) (r : Path) : FS.lookup fs (p ++ r) = none := by
  cases hl : FS.lookup fs (p ++ r) with
  | none => rfl
  | some n =>
    have hex : FS.pathExists fs (p ++ r) = true := FS.pathExists_of_lookup hl
    obtain ⟨e, he, hpre⟩ := FS.pathExists_iff.mp hex
    have : FS.pathExists fs p = true :=
      FS.pathExists_iff.mpr ⟨e, he, (List.prefix_append p r).trans hpre⟩
    rw [this] at h
    exact absurd h (by simp)

theorem FS.pathExists_rename_src {fs : FS} {src dst : Path}
    (h1 : ¬ dst <+: src) (h2 : ¬ src <+: dst) :
    FS.pathExists (FS.rename fs src dst) src = false := by
  cases hex : FS.pathExists (FS.rename fs src dst) src with
  | false => rfl
  | true =>
    exfalso
    obtain ⟨e, he, hpre⟩ := FS.pathExists_iff.mp hex
    unfold FS.rename at he
    rw [List.mem_append] at he
    cases he with
    | inl hg =>
      rw [List.mem_map] at hg
      obtain ⟨x, -, hx⟩ := hg
      rw [← hx] at hpre
      exact not_pre_of_sep_left h2 h1 x.1 hpre
    | inr hk =>
      unfold FS.eraseTree at hk
      rw [List.mem_filter] at hk
      have := hk.2
      rw [List.isPrefixOf_iff_prefix.mpr hpre] at this
      exact absurd this (by simp)

theorem FS.NodupPaths_rename {fs : FS} {src dst : Path}
    (h : FS.NodupPaths fs) (hfresh : FS.pathExists fs dst = false) :
    FS.NodupPaths (FS.rename fs src dst) := by
  unfold FS.NodupPaths FS.rename
  rw [List.map_append, List.nodup_append]
  refine ⟨?_, ?_, ?_⟩
  · rw [List.map_map]
    have hcomp : (Prod.fst ∘ fun e : Path × Node => (dst ++ e.1, e.2)) =
        (fun p : Path => dst ++ p) ∘ Prod.fst := rfl
    rw [hcomp, ← List.map_map]
    exact List.Nodup.map (fun a b hab => List.append_cancel_left hab)
      (FS.subtree_keys_nodup h src)
  · refine List.Nodup.sublist ?_ h
    exact List.Sublist.map Prod.fst (List.filter_sublist fs)
  · intro a ha hb
    rw [List.mem_map] at ha hb
    obtain ⟨x, hxmem, hx⟩ := ha
    obtain ⟨e, he, hea⟩ := hb
    rw [List.mem_map] at hxmem
    obtain ⟨y, -, hy⟩ := hxmem
    unfold FS.eraseTree at he
    rw [List.mem_filter] at he
    have hdpre : dst <+: e.1 := by
      rw [hea, ← hx, ← hy]
      exact ⟨y.1, rfl⟩
    have : FS.pathExists fs dst = true := FS.pathExists_iff.mpr ⟨e, he.1, hdpre⟩
    rw [this] at hfresh
    exact absurd hfresh (by simp)

/-- Content of the rollback core: the chosen backup is untouched, the
deployment afterwards holds exactly the backup content, and the old
deployment content sits at the fresh safety-backup sibling. -/
theorem rollback_content (fs : FS) (target backupPath : Path)
    (hnd : FS.NodupPaths fs) (ht : target ≠ [])
    (hbt : pathsSeparated backupPath target)
    (hbe : FS.pathExists fs backupPath = true) :
    (∀ r, FS.lookup (rollback_core fs target backupPath).1 (backupPath ++ r) =
      FS.lookup fs (backupPath ++ r)) ∧
    (∀ r, FS.lookup (rollback_core fs target backupPath).1 (target ++ r) =
      FS.lookup fs (backupPath ++ r)) ∧
    (∀ r, FS.lookup (rollback_core fs target backupPath).1
      ((rollback_core fs target backupPath).2 ++ r) = FS.lookup fs (target ++ r)) ∧
    (rollback_core fs target backupPath).2 = create_backup_name fs target none ∧
    FS.pathExists fs (rollback_core fs target backupPath).2 = false ∧
    (rollback_core fs target backupPath).2.dropLast = target.dropLast := by
  have hsbfresh : FS.pathExists fs (create_backup_name fs target none) = false :=
    (create_backup_name_spec fs target none).1
  have hsbt : pathsSeparated (create_backup_name fs target none) target :=
    create_backup_name_sep fs target none ht
  have hsbbk : pathsSeparated (create_backup_name fs target none) backupPath := by
    constructor
    · intro hc
      obtain ⟨e, he, hpre⟩ := FS.pathExists_iff.mp hbe
      have : FS.pathExists fs (create_backup_name fs target none) = true :=
        FS.pathExists_iff.mpr ⟨e, he, hc.trans hpre⟩
      rw [this] at hsbfresh
      exact absurd hsbfresh (by simp)
    · intro hc
      have hdl : (create_backup_name fs target none).dropLast = target.dropLast :=
        (create_backup_name_spec fs target none).2.1
      rcases Nat.le_total backupPath.length target.dropLast.length with hle | hle
      · have h1 : backupPath <+: target.dropLast := by
          have h2 : target.dropLast <+: create_backup_name fs target none := by
            rw [← hdl]
            exact List.dropLast_prefix _
          exact List.prefix_of_prefix_length_le hc h2 (by
            have := hdl ▸ (List.dropLast_prefix (create_backup_name fs target none)).length_le
            omega)
        exact hbt.1 (h1.trans (List.dropLast_prefix target))
      · have hlensb : (create_backup_name fs target none).length =
            target.dropLast.length + 1 := by
          obtain ⟨-, hdl2, k, hk, -⟩ := create_backup_name_spec fs target none
          rw [hk]
          simp
        have hlenbk : backupPath.length ≤ (create_backup_name fs target none).length :=
          hc.length_le
        have hbkeq : backupPath = create_backup_name fs target none := by
          rcases Nat.lt_or_ge backupPath.length (create_backup_name fs target none).length
            with hlt | hge
          · have h1 : backupPath <+: target.dropLast := by
              have h2 : target.dropLast <+: create_backup_name fs target none := by
                rw [← hdl]
                exact List.dropLast_prefix _
              exact List.prefix_of_prefix_length_le hc h2 (by omega)
            exact absurd (h1.trans (List.dropLast_prefix target)) hbt.1
          · exact hc.eq_of_length (by omega)
        rw [hbkeq] at hbe
        rw [hbe] at hsbfresh
        exact absurd hsbfresh (by simp)
  have hfs1 : (rollback_core fs target backupPath).1 =
      FS.copytree (FS.rename fs target (create_backup_name fs target none))
        backupPath target := by
    have hplain : (rollback_core fs target backupPath).1 =
        FS.copytree (FS.move fs target (create_backup_name fs target none))
          backupPath target := rfl
    rw [hplain, FS.move_of_fresh hsbfresh]
  have hsb2 : (rollback_core fs target backupPath).2 =
      create_backup_name fs target none := rfl
  have hnd1 : FS.NodupPaths (FS.rename fs target (create_backup_name fs target none)) :=
    FS.NodupPaths_rename hnd hsbfresh
  have hframe1 : ∀ r, FS.lookup
      (FS.rename fs target (create_backup_name fs target none)) (backupPath ++ r) =
      FS.lookup fs (backupPath ++ r) := by
    intro r
    exact FS.lookup_rename_frame
      (not_pre_of_sep_left hbt.2 hbt.1 r)
      (not_pre_of_sep_left hsbbk.1 hsbbk.2 r)
  have htgone : FS.pathExists
      (FS.rename fs target (create_backup_name fs target none)) target = false :=
    FS.pathExists_rename_src hsbt.1 hsbt.2
  refine ⟨?_, ?_, ?_, hsb2, hsb2 ▸ hsbfresh, hsb2 ▸ (create_backup_name_spec fs target none).2.1⟩
  · intro r
    rw [hfs1]
    rw [FS.lookup_copytree_frame (not_pre_of_sep_left hbt.2 hbt.1 r)]
    exact hframe1 r
  · intro r
    rw [hfs1]
    rw [FS.lookup_copytree hnd1 backupPath target r]
    rw [hframe1 r]
    cases hlk : FS.lookup fs (backupPath ++ r) with
    | some n => rfl
    | none =>
      exact FS.lookup_none_of_no_tree htgone r
  · intro r
    rw [hfs1, hsb2]
    rw [FS.lookup_copytree_frame (not_pre_of_sep_left hsbt.2 hsbt.1 r)]
    exact FS.lookup_rename_dst hsbfresh r

theorem FS.pathExists_mono {fs : FS} {p q : Path} (hpq : p <+: q)
    (h : FS.pathExists fs q = true) : FS.pathExists fs p = true := by
  obtain ⟨e, he, hpre⟩ := FS.pathExists_iff.mp h
  exact FS.pathExists_iff.mpr ⟨e, he, hpq.trans hpre⟩

theorem step_restore_c_ran {fs : FS} {source target : Path} {sd : Option Path}
    {rf rd : Nat} (h : (step_restore_c fs source target sd rf rd).2.2.2 = true) :
    rf = 0 ∧ rd = 0 := by
  unfold step_restore_c at h
  by_cases hz : (decide (rf = 0) && decide (rd = 0)) = true
  · rw [Bool.and_eq_true, decide_eq_true_eq, decide_eq_true_eq] at hz
    exact hz
  · rw [if_neg hz] at h
    exact absurd h (by simp)

/-! ## Claims -/

/-- C4: for a non-empty DeploymentPath containing a.txt and sub/ and an
extracted tree containing b.txt and sub/c.txt, apply moves the old
deployment to exactly one new backup server_backup_2 holding the
pre-apply content, recreates the deployment with the extracted entries
(one file and one directory copied, merging semantics), and writes the
version marker 2. -/
theorem claim_C4_apply_concrete_scenario :
    (copy_server_files scenarioFS ["src"] ["base", "server"] none (some "2") noFaults).2 =
      Except.ok
        { backup_created := some "server_backup_2", data_backup_created := none,
          copied_files := 1, copied_dirs := 1,
          tierA_files := 0, tierA_dirs := 0, tierB_files := 0, tierB_dirs := 0,
          tierC_files := 0, tierC_dirs := 0, tierB_ran := false, tierC_ran := false } ∧
    FS.agree (copy_server_files scenarioFS ["src"] ["base", "server"] none
      (some "2") noFaults).1 scenarioExpected = true := by
  constructor
  · rfl
  · rfl

/-- C10: with only the archive 17346.7z cached, resolving artifact 173
with force=false returns 17346.7z as a cache hit (no network fetch, and
the cache is untouched), because the lookup matches by the prefix glob
173*.7z and takes the first match. -/
theorem claim_C10_prefix_glob_collision :
    download_or_find_artifact
        { downloadDir := ["17346.7z"], listing := [] } "173" false =
      Except.ok ("17346.7z", false, { downloadDir := ["17346.7z"], listing := [] }) := by
  rfl

/-- C1 counterexample: in tierFS, tier (a) yields an entry
(tierA_files = 1) while tier (b) is still consulted (tierB_ran = true)
and even restores the file k.txt from the deployment backup's nested
ServerData into the data directory. -/
theorem claim_C1_counterexample :
    ∃ r, (copy_server_files tierFS ["s"] ["b", "srv"] (some ["b", "data"])
        (some "2") noFaults).2 = Except.ok r ∧
      r.tierA_files = 1 ∧ r.tierB_ran = true ∧ r.tierB_files = 1 ∧
      FS.lookup (copy_server_files tierFS ["s"] ["b", "srv"] (some ["b", "data"])
        (some "2") noFaults).1 ["b", "data", "k.txt"] = some (Node.file "K") := by
  refine ⟨_, rfl, rfl, rfl, rfl, rfl⟩

/-- C2 counterexample: with every filesystem step succeeding except the
version.txt write (whose failure create_version_file swallows), the
update returns success yet the new deployment holds no version marker. -/
theorem claim_C2_counterexample :
    (copy_server_files scenarioFS ["src"] ["base", "server"] none
        (some "2") versionWriteFault).2 =
      Except.ok
        { backup_created := some "server_backup_2", data_backup_created := none,
          copied_files := 1, copied_dirs := 1,
          tierA_files := 0, tierA_dirs := 0, tierB_files := 0, tierB_dirs := 0,
          tierC_files := 0, tierC_dirs := 0, tierB_ran := false, tierC_ran := false } ∧
    FS.lookup (copy_server_files scenarioFS ["src"] ["base", "server"] none
        (some "2") versionWriteFault).1 ["base", "server", "version.txt"] = none := by
  constructor
  · rfl
  · rfl

/-- C8: cleanup_old_files with days ≤ 0 deletes nothing and reports 0;
with days N > 0 it keeps exactly the files that are not .7z archives
strictly older than now − N days, deletes within the listing, and
reports as deleted exactly the number of files that disappeared. -/
theorem claim_C8_cleanup_semantics (files : List CachedFile) (now daysOld : Int) :
    (daysOld ≤ 0 → cleanup_old_files files now daysOld = (files, 0)) ∧
    (0 < daysOld →
      (∀ f ∈ files, f ∈ (cleanup_old_files files now daysOld).1 ↔
        ¬(List.isSuffixOf ".7z".data f.name.data = true ∧
          f.mtime < now - daysOld * 86400)) ∧
      (∀ f ∈ (cleanup_old_files files now daysOld).1, f ∈ files) ∧
      (cleanup_old_files files now daysOld).2 +
        (cleanup_old_files files now daysOld).1.length = files.length) := by
  constructor
  · intro h
    unfold cleanup_old_files
    rw [if_pos h]
  · intro h
    have hneg : ¬ daysOld ≤ 0 := by omega
    refine ⟨?_, ?_, ?_⟩
    · intro f hf
      unfold cleanup_old_files
      rw [if_neg hneg]
      constructor
      · intro hmem hc
        have hkeep := (List.mem_filter.mp hmem).2
        rw [Bool.not_eq_eq_eq_not, Bool.not_true] at hkeep
        unfold doomedFile at hkeep
        rw [hc.1, decide_eq_true hc.2] at hkeep
        simp at hkeep
      · intro hnot
        refine List.mem_filter.mpr ⟨hf, ?_⟩
        rw [Bool.not_eq_eq_eq_not, Bool.not_true]
        unfold doomedFile
        cases hsuf : List.isSuffixOf ".7z".data f.name.data with
        | false => simp
        | true =>
          have hm : ¬ f.mtime < now - daysOld * 86400 := fun hm => hnot ⟨hsuf, hm⟩
          simp [hm]
    · intro f hf
      unfold cleanup_old_files at hf
      rw [if_neg hneg] at hf
      exact (List.mem_filter.mp hf).1
    · unfold cleanup_old_files
      rw [if_neg hneg]
      simp only
      have := List.length_eq_length_filter_add (l := files) (doomedFile now daysOld)
      omega

/-- C9: delete_backup_directory removes the tree and returns true when
the path is an existing directory, returns false when the backup is
absent, and re-raises (rather than returning false) when rmtree itself
fails. -/
theorem claim_C9_delete_backup_semantics (fs : FS) (p : Path) (rmtreeFails : Bool) :
    (FS.pathExists fs p = true → FS.isDir fs p = true → rmtreeFails = false →
      delete_backup_directory fs p rmtreeFails = (FS.eraseTree fs p, Except.ok true) ∧
      ∀ q, p <+: q →
        FS.lookup (delete_backup_directory fs p rmtreeFails).1 q = none) ∧
    (FS.pathExists fs p = false →
      delete_backup_directory fs p rmtreeFails = (fs, Except.ok false)) ∧
    (FS.pathExists fs p = true → FS.isDir fs p = true → rmtreeFails = true →
      delete_backup_directory fs p rmtreeFails = (fs, Except.error ())) := by
  refine ⟨?_, ?_, ?_⟩
  · intro he hd hf
    subst hf
    unfold delete_backup_directory
    rw [he, hd]
    exact ⟨rfl, fun q hq => FS.lookup_eraseTree_of_pre hq⟩
  · intro he
    unfold delete_backup_directory
    rw [he]
    rfl
  · intro he hd hf
    subst hf
    unfold delete_backup_directory
    rw [he, hd]
    rfl

/-- C9 witness: concrete instances of the three branches. -/
theorem claim_C9_witness :
    delete_backup_directory [(["b"], Node.dir), (["b", "x.txt"], Node.file "X")] ["b"] false =
      (FS.eraseTree [(["b"], Node.dir), (["b", "x.txt"], Node.file "X")] ["b"],
        Except.ok true) ∧
    FS.lookup (delete_backup_directory
      [(["b"], Node.dir), (["b", "x.txt"], Node.file "X")] ["b"] false).1 ["b", "x.txt"] = none ∧
    delete_backup_directory [(["c"], Node.dir)] ["b"] false =
      ([(["c"], Node.dir)], Except.ok false) ∧
    delete_backup_directory [(["b"], Node.dir)] ["b"] true =
      ([(["b"], Node.dir)], Except.error ()) :=
  ⟨((claim_C9_delete_backup_semantics
      [(["b"], Node.dir), (["b", "x.txt"], Node.file "X")] ["b"] false).1
      (by decide) (by decide) rfl).1,
   ((claim_C9_delete_backup_semantics
      [(["b"], Node.dir), (["b", "x.txt"], Node.file "X")] ["b"] false).1
      (by decide) (by decide) rfl).2 ["b", "x.txt"] ⟨["x.txt"], rfl⟩,
   (claim_C9_delete_backup_semantics [(["c"], Node.dir)] ["b"] false).2.1 (by decide),
   (claim_C9_delete_backup_semantics [(["b"], Node.dir)] ["b"] true).2.2
      (by decide) (by decide) rfl⟩

/-- C8 witness: a concrete run of both branches (days = 0 keeps both
files; days = 2 deletes exactly the old archive). -/
theorem claim_C8_witness :
    cleanup_old_files
        [⟨"old.7z", 0⟩, ⟨"new.7z", 1000000⟩] 1000000 0 =
      ([⟨"old.7z", 0⟩, ⟨"new.7z", 1000000⟩], 0) ∧
    ((⟨"old.7z", 0⟩ : CachedFile) ∈
        (cleanup_old_files [⟨"old.7z", 0⟩, ⟨"new.7z", 1000000⟩] 1000000 2).1 ↔
      ¬(List.isSuffixOf ".7z".data "old.7z".data = true ∧ (0 : Int) < 1000000 - 2 * 86400)) ∧
    (cleanup_old_files [⟨"old.7z", 0⟩, ⟨"new.7z", 1000000⟩] 1000000 2).2 +
      (cleanup_old_files [⟨"old.7z", 0⟩, ⟨"new.7z", 1000000⟩] 1000000 2).1.length = 2 :=
  ⟨(claim_C8_cleanup_semantics [⟨"old.7z", 0⟩, ⟨"new.7z", 1000000⟩] 1000000 0).1
      (by omega),
   ((claim_C8_cleanup_semantics [⟨"old.7z", 0⟩, ⟨"new.7z", 1000000⟩] 1000000 2).2
      (by omega)).1 ⟨"old.7z", 0⟩ (by simp),
   ((claim_C8_cleanup_semantics [⟨"old.7z", 0⟩, ⟨"new.7z", 1000000⟩] 1000000 2).2
      (by omega)).2.2⟩

theorem globMatch_download_name (n : String) : globMatch n ".7z" (n ++ ".7z") = true := by
  have hdata : (n ++ ".7z").data = n.data ++ ".7z".data := rfl
  simp [globMatch, hdata]

/-- C5: a cached glob match with force=false is returned as-is with no
network fetch and no cache change; and a second resolve of the same id
right after any successful resolve returns the same path without
fetching. -/
theorem claim_C5_cache_hit_idempotent :
    (∀ (env : CacheEnv) (n p : String),
      (cacheMatches env n).head? = some p →
      download_or_find_artifact env n false = Except.ok (p, false, env)) ∧
    (∀ (env env2 : CacheEnv) (n p : String) (fetched : Bool),
      download_or_find_artifact env n false = Except.ok (p, fetched, env2) →
      download_or_find_artifact env2 n false = Except.ok (p, false, env2)) := by
  have hhit : ∀ (env : CacheEnv) (n p : String),
      (cacheMatches env n).head? = some p →
      download_or_find_artifact env n false = Except.ok (p, false, env) := by
    intro env n p hp
    unfold download_or_find_artifact
    cases hm : cacheMatches env n with
    | nil => rw [hm] at hp; exact Option.noConfusion hp
    | cons a l =>
      rw [hm] at hp
      have hap : a = p := by
        injection hp
      subst hap
      rfl
  refine ⟨hhit, ?_⟩
  intro env env2 n p fetched h1
  cases hm : cacheMatches env n with
  | cons a l =>
    unfold download_or_find_artifact at h1
    rw [hm] at h1
    simp only [List.isEmpty_cons, Bool.not_false, Bool.and_self] at h1
    have hp : a = p ∧ env = env2 := by
      rw [if_true] at h1
      injection h1 with h1
      rw [Prod.mk.injEq, Prod.mk.injEq] at h1
      exact ⟨h1.1, h1.2.2⟩
    obtain ⟨hap, henv⟩ := hp
    subst hap
    subst henv
    exact hhit env n a (by rw [hm]; rfl)
  | nil =>
    unfold download_or_find_artifact at h1
    rw [hm] at h1
    simp only [List.isEmpty_nil, Bool.not_true, Bool.false_and, Bool.false_eq_true,
      if_false] at h1
    cases hdir : find_artifact_dir env n with
    | none => rw [hdir] at h1; exact Except.noConfusion h1
    | some d =>
      rw [hdir] at h1
      have hnotmem : env.downloadDir.contains (n ++ ".7z") = false := by
        cases hc : env.downloadDir.contains (n ++ ".7z") with
        | false => rfl
        | true =>
          have hmem : (n ++ ".7z") ∈ env.downloadDir := by
            rw [← List.elem_iff]
            exact hc
          have : (n ++ ".7z") ∈ cacheMatches env n :=
            List.mem_filter.mpr ⟨hmem, globMatch_download_name n⟩
          rw [hm] at this
          exact absurd this (List.not_mem_nil _)
      rw [hnotmem] at h1
      simp only [Bool.false_eq_true, if_false] at h1
      injection h1 with h1
      have hpf : p = n ++ ".7z" := (congrArg Prod.fst h1).symm
      have henv2 : env2 = { env with downloadDir := env.downloadDir ++ [n ++ ".7z"] } :=
        (congrArg (fun x => x.2.2) h1).symm
      subst hpf
      subst henv2
      refine hhit _ n _ ?_
      unfold cacheMatches at hm ⊢
      simp only [List.filter_append, hm]
      rw [List.filter_cons_of_pos (globMatch_download_name n)]
      rfl

/-- C5 witness: a concrete cache-hit run and a concrete
miss-then-download pair of runs. -/
theorem claim_C5_witness :
    download_or_find_artifact { downloadDir := ["100.7z"], listing := [] } "100" false =
      Except.ok ("100.7z", false, { downloadDir := ["100.7z"], listing := [] }) ∧
    download_or_find_artifact
        { downloadDir := ["100.7z"], listing := [("200", "200-ab")] } "200" false =
      Except.ok ("200.7z", true,
        { downloadDir := ["100.7z", "200.7z"], listing := [("200", "200-ab")] }) ∧
    download_or_find_artifact
        { downloadDir := ["100.7z", "200.7z"], listing := [("200", "200-ab")] } "200" false =
      Except.ok ("200.7z", false,
        { downloadDir := ["100.7z", "200.7z"], listing := [("200", "200-ab")] }) :=
  ⟨claim_C5_cache_hit_idempotent.1 { downloadDir := ["100.7z"], listing := [] } "100"
      "100.7z" (by rfl),
   by rfl,
   claim_C5_cache_hit_idempotent.2
      { downloadDir := ["100.7z"], listing := [("200", "200-ab")] }
      { downloadDir := ["100.7z", "200.7z"], listing := [("200", "200-ab")] }
      "200" "200.7z" true (by rfl)⟩

/-- C6: create_backup_name returns a sibling path absent from the parent
directory, obtained as the first free candidate of the naming sequence
(every earlier candidate being taken), and the sequence itself is
dir_name_backup_version from the version marker when present, else from
a truthy artifact number, else the incrementing dir_name_bakN names. -/
theorem claim_C6_backup_name_unique (fs : FS) (target : Path) (art : Option String) :
    FS.pathExists fs (create_backup_name fs target art) = false ∧
    (create_backup_name fs target art).dropLast = target.dropLast ∧
    (∃ k, create_backup_name fs target art =
        target.dropLast ++ [backupCandSeq fs target art k] ∧
      ∀ j, j < k →
        FS.pathExists fs (target.dropLast ++ [backupCandSeq fs target art j]) = true) ∧
    (∀ v, get_current_version fs target = some v →
      backupCandSeq fs target art 0 = pathLast target ++ "_backup_" ++ v ∧
      ∀ k, backupCandSeq fs target art (k + 1) =
        pathLast target ++ "_backup_" ++ v ++ "_" ++ decStr (k + 1)) ∧
    (get_current_version fs target = none → ∀ a, art = some a → a ≠ "" →
      backupCandSeq fs target art 0 = pathLast target ++ "_backup_" ++ a ∧
      ∀ k, backupCandSeq fs target art (k + 1) =
        pathLast target ++ "_backup_" ++ a ++ "_" ++ decStr (k + 1)) ∧
    (get_current_version fs target = none → (art = none ∨ art = some "") →
      ∀ k, backupCandSeq fs target art k =
        pathLast target ++ "_bak" ++ decStr (k + 1)) := by
  obtain ⟨h1, h2, h3⟩ := create_backup_name_spec fs target art
  refine ⟨h1, h2, h3, ?_, ?_, ?_⟩
  · intro v hv
    unfold backupCandSeq
    rw [hv]
    exact ⟨rfl, fun k => rfl⟩
  · intro hv a ha hne
    unfold backupCandSeq
    rw [hv, ha]
    simp only [if_neg hne]
    exact ⟨rfl, fun k => rfl⟩
  · intro hv hart
    unfold backupCandSeq
    rw [hv]
    cases hart with
    | inl h => rw [h]; intro k; rfl
    | inr h => rw [h]; intro k; rfl

/-- C6 witness: a directory with a version marker 5 and two prior
backups srv_backup_5 and srv_backup_5_1; the next name is
srv_backup_5_2, reached with candidates 0 and 1 taken. -/
theorem claim_C6_witness :
    FS.pathExists
      [((["b"] : Path), Node.dir), (["b", "srv"], Node.dir),
       (["b", "srv", "version.txt"], Node.file "5"),
       (["b", "srv_backup_5"], Node.dir), (["b", "srv_backup_5_1"], Node.dir)]
      (create_backup_name
        [((["b"] : Path), Node.dir), (["b", "srv"], Node.dir),
         (["b", "srv", "version.txt"], Node.file "5"),
         (["b", "srv_backup_5"], Node.dir), (["b", "srv_backup_5_1"], Node.dir)]
        ["b", "srv"] none) = false ∧
    backupCandSeq
      [((["b"] : Path), Node.dir), (["b", "srv"], Node.dir),
       (["b", "srv", "version.txt"], Node.file "5"),
       (["b", "srv_backup_5"], Node.dir), (["b", "srv_backup_5_1"], Node.dir)]
      ["b", "srv"] none 0 = "srv" ++ "_backup_" ++ "5" ∧
    create_backup_name
      [((["b"] : Path), Node.dir), (["b", "srv"], Node.dir),
       (["b", "srv", "version.txt"], Node.file "5"),
       (["b", "srv_backup_5"], Node.dir), (["b", "srv_backup_5_1"], Node.dir)]
      ["b", "srv"] none = ["b", "srv_backup_5_2"] :=
  ⟨(claim_C6_backup_name_unique _ ["b", "srv"] none).1,
   ((claim_C6_backup_name_unique
      [((["b"] : Path), Node.dir), (["b", "srv"], Node.dir),
       (["b", "srv", "version.txt"], Node.file "5"),
       (["b", "srv_backup_5"], Node.dir), (["b", "srv_backup_5_1"], Node.dir)]
      ["b", "srv"] none).2.2.2.1 "5" (by rfl)).1,
   by rfl⟩

/-- C7: the backup catalog is sorted newest-created-first; its entries
are exactly the deployment-sibling directories matching name_backup*
(classified server / server+data by the nested ServerData child) plus,
when a data path is configured, the data-sibling directories matching
dataname_backup* (classified server-data); and with distinct creation
times the output does not depend on the enumeration order of either
directory listing. -/
theorem claim_C7_catalog_sorted_newest_first
    (serverSiblings : List DirEntry) (serverName : String)
    (dataCfg : Option (List DirEntry × String)) :
    List.Sorted backupNewerEq (find_backup_directories serverSiblings serverName dataCfg) ∧
    (∀ b, b ∈ find_backup_directories serverSiblings serverName dataCfg ↔
      ((∃ e ∈ serverSiblings, e.isDir = true ∧
          List.isPrefixOf (serverName ++ "_backup").data e.name.data = true ∧
          b = classifyServerBackup e) ∨
       (∃ ds dn, dataCfg = some (ds, dn) ∧ ∃ e ∈ ds, e.isDir = true ∧
          List.isPrefixOf (dn ++ "_backup").data e.name.data = true ∧
          b = classifyDataBackup e))) ∧
    (∀ (s2 : List DirEntry) (d2 : Option (List DirEntry × String)),
      s2.Perm serverSiblings → dataPermRel d2 dataCfg →
      ((find_backup_directories serverSiblings serverName dataCfg).map
        BackupEntry.created).Nodup →
      find_backup_directories s2 serverName d2 =
        find_backup_directories serverSiblings serverName dataCfg) := by
  refine ⟨by unfold find_backup_directories; exact List.sorted_insertionSort _ _, ?_, ?_⟩
  · intro b
    unfold find_backup_directories catalogEntries
    rw [List.mem_insertionSort, List.mem_append]
    cases dataCfg with
    | none =>
      simp only [List.mem_map, List.mem_filter, Bool.and_eq_true]
      constructor
      · rintro (⟨e, ⟨he, hdir, hmatch⟩, hb⟩ | hmem)
        · exact Or.inl ⟨e, he, hdir, hmatch, hb.symm⟩
        · exact absurd hmem (List.not_mem_nil b)
      · rintro (⟨e, he, hdir, hmatch, hb⟩ | ⟨ds, dn, hcfg, -⟩)
        · exact Or.inl ⟨e, ⟨he, hdir, hmatch⟩, hb.symm⟩
        · exact Option.noConfusion hcfg
    | some p =>
      obtain ⟨ds, dn⟩ := p
      simp only [List.mem_map, List.mem_filter, Bool.and_eq_true]
      constructor
      · rintro (⟨e, ⟨he, hdir, hmatch⟩, hb⟩ | ⟨e, ⟨he, hdir, hmatch⟩, hb⟩)
        · exact Or.inl ⟨e, he, hdir, hmatch, hb.symm⟩
        · exact Or.inr ⟨ds, dn, rfl, e, he, hdir, hmatch, hb.symm⟩
      · rintro (⟨e, he, hdir, hmatch, hb⟩ | ⟨ds2, dn2, hcfg, e, he, hdir, hmatch, hb⟩)
        · exact Or.inl ⟨e, ⟨he, hdir, hmatch⟩, hb.symm⟩
        · injection hcfg with hcfg
          injection hcfg with h1 h2
          subst h1
          subst h2
          exact Or.inr ⟨e, ⟨he, hdir, hmatch⟩, hb.symm⟩
  · intro s2 d2 hs hd hnodup
    have hpermAB : (catalogEntries s2 serverName d2).Perm
        (catalogEntries serverSiblings serverName dataCfg) := by
      unfold catalogEntries
      refine List.Perm.append ((hs.filter _).map _) ?_
      cases d2 with
      | none =>
        cases dataCfg with
        | none => exact List.Perm.refl _
        | some p => exact absurd hd (by simp [dataPermRel])
      | some p2 =>
        obtain ⟨l2, n2⟩ := p2
        cases dataCfg with
        | none => exact absurd hd (by simp [dataPermRel])
        | some p1 =>
          obtain ⟨l1, n1⟩ := p1
          obtain ⟨hn, hl⟩ := hd
          subst hn
          exact (hl.filter _).map _
    have hout : (find_backup_directories s2 serverName d2).Perm
        (find_backup_directories serverSiblings serverName dataCfg) := by
      unfold find_backup_directories
      exact ((List.perm_insertionSort backupNewerEq _).trans hpermAB).trans
        (List.perm_insertionSort backupNewerEq _).symm
    have hs1 : List.Sorted backupNewerEq
        (find_backup_directories serverSiblings serverName dataCfg) := by
      unfold find_backup_directories
      exact List.sorted_insertionSort _ _
    have hs2 : List.Sorted backupNewerEq (find_backup_directories s2 serverName d2) := by
      unfold find_backup_directories
      exact List.sorted_insertionSort _ _
    have hnodup2 := (List.Perm.nodup_iff (hout.map BackupEntry.created)).mpr hnodup
    have hstrict : ∀ (l : List BackupEntry), List.Sorted backupNewerEq l →
        (l.map BackupEntry.created).Nodup → List.Sorted backupNewer l := by
      intro l hsort hnd
      have hne : List.Pairwise (fun a b : BackupEntry => a.created ≠ b.created) l := by
        rw [List.Nodup, List.pairwise_map] at hnd
        exact hnd
      exact (hsort.and hne).imp (fun h => Nat.lt_of_le_of_ne h.1 (Ne.symm h.2))
    exact List.eq_of_perm_of_sorted hout
      (hstrict _ hs2 hnodup2) (hstrict _ hs1 hnodup)

/-- C7 witness: three backups with distinct creation times, listed
newest-first from two different enumeration orders. -/
theorem claim_C7_witness :
    find_backup_directories
        [⟨"srv_backup_1", true, 10, []⟩, ⟨"srv_backup_2", true, 30, ["ServerData"]⟩,
         ⟨"other", true, 99, []⟩]
        "srv" (some ([⟨"data_backup_1", true, 20, []⟩], "data")) =
      [⟨"srv_backup_2", 30, "server+data"⟩, ⟨"data_backup_1", 20, "server-data"⟩,
       ⟨"srv_backup_1", 10, "server"⟩] ∧
    (⟨"srv_backup_2", 30, "server+data"⟩ : BackupEntry) ∈
      find_backup_directories
        [⟨"srv_backup_1", true, 10, []⟩, ⟨"srv_backup_2", true, 30, ["ServerData"]⟩,
         ⟨"other", true, 99, []⟩]
        "srv" (some ([⟨"data_backup_1", true, 20, []⟩], "data")) ∧
    find_backup_directories
        [⟨"srv_backup_2", true, 30, ["ServerData"]⟩, ⟨"other", true, 99, []⟩,
         ⟨"srv_backup_1", true, 10, []⟩]
        "srv" (some ([⟨"data_backup_1", true, 20, []⟩], "data")) =
      find_backup_directories
        [⟨"srv_backup_1", true, 10, []⟩, ⟨"srv_backup_2", true, 30, ["ServerData"]⟩,
         ⟨"other", true, 99, []⟩]
        "srv" (some ([⟨"data_backup_1", true, 20, []⟩], "data")) :=
  ⟨by rfl,
   ((claim_C7_catalog_sorted_newest_first
      [⟨"srv_backup_1", true, 10, []⟩, ⟨"srv_backup_2", true, 30, ["ServerData"]⟩,
       ⟨"other", true, 99, []⟩]
      "srv" (some ([⟨"data_backup_1", true, 20, []⟩], "data"))).2.1 _).mpr
      (Or.inl ⟨⟨"srv_backup_2", true, 30, ["ServerData"]⟩, by decide, by decide,
        by decide, by rfl⟩),
   (claim_C7_catalog_sorted_newest_first
      [⟨"srv_backup_1", true, 10, []⟩, ⟨"srv_backup_2", true, 30, ["ServerData"]⟩,
       ⟨"other", true, 99, []⟩]
      "srv" (some ([⟨"data_backup_1", true, 20, []⟩], "data"))).2.2
      [⟨"srv_backup_2", true, 30, ["ServerData"]⟩, ⟨"other", true, 99, []⟩,
       ⟨"srv_backup_1", true, 10, []⟩]
      (some ([⟨"data_backup_1", true, 20, []⟩], "data"))
      (by decide) (by exact ⟨rfl, List.Perm.refl _⟩) (by decide)⟩

/-- C1 (amended): only tier (c) of the data restore is guarded by the
earlier tiers: it runs only when tiers (a) and (b) together restored
nothing.  (Tier (b) itself is not exclusive with tier (a); see the
counterexample.) -/
theorem claim_C1_tierC_only_when_ab_empty (fs0 : FS) (source target : Path)
    (sd : Option Path) (art : Option String) (fl : Faults) (fsr : FS) (r : CopyResult)
    (h : copy_server_files fs0 source target sd art fl = (fsr, Except.ok r))
    (hran : r.tierC_ran = true) :
    r.tierA_files + r.tierB_files = 0 ∧ r.tierA_dirs + r.tierB_dirs = 0 := by
  obtain ⟨fs1, bc, fs2, dbc, fs3, cf, cd, -, -, -, -, -, hr⟩ := copy_server_files_ok h
  subst hr
  exact step_restore_c_ran hran

/-- C1 witness: a first-install run in which tier (c) fires (the
artifact ships server-data, nothing was restored by tiers (a)/(b)). -/
theorem claim_C1_witness :
    ∃ fsr r,
      copy_server_files
          [((["s"] : Path), Node.dir), (["s", "server-data"], Node.dir),
           (["s", "server-data", "w.txt"], Node.file "W")]
          ["s"] ["b", "srv"] none none noFaults = (fsr, Except.ok r) ∧
      r.tierC_ran = true ∧
      r.tierA_files + r.tierB_files = 0 ∧ r.tierA_dirs + r.tierB_dirs = 0 := by
  refine ⟨(copy_server_files
      [((["s"] : Path), Node.dir), (["s", "server-data"], Node.dir),
       (["s", "server-data", "w.txt"], Node.file "W")]
      ["s"] ["b", "srv"] none none noFaults).1,
    { backup_created := none, data_backup_created := none,
      copied_files := 0, copied_dirs := 1,
      tierA_files := 0, tierA_dirs := 0, tierB_files := 0, tierB_dirs := 0,
      tierC_files := 1, tierC_dirs := 0, tierB_ran := false, tierC_ran := true },
    ?_, rfl, ?_, ?_⟩
  · rfl
  · exact (claim_C1_tierC_only_when_ab_empty
      [((["s"] : Path), Node.dir), (["s", "server-data"], Node.dir),
       (["s", "server-data", "w.txt"], Node.file "W")]
      ["s"] ["b", "srv"] none none noFaults _ _ (by rfl) rfl).1
  · exact (claim_C1_tierC_only_when_ab_empty
      [((["s"] : Path), Node.dir), (["s", "server-data"], Node.dir),
       (["s", "server-data", "w.txt"], Node.file "W")]
      ["s"] ["b", "srv"] none none noFaults _ _ (by rfl) rfl).2

/-- C2 (amended): an update either aborts leaving every backup made so
far intact (the old deployment content is still at the deployment path
or complete at the new backup sibling, and likewise for the data tree),
or returns success, in which case the old deployment content sits
complete at the backup sibling and — provided the version.txt write
itself did not fail, a failure the source swallows — version.txt in the
new deployment holds the new artifact id; a successful rollback inherits
version.txt from the chosen backup's content. -/
theorem claim_C2_update_marker_or_backup_intact
    (fs0 : FS) (source target : Path) (sd : Option Path) (a : String) (fl : Faults)
    (ht : target ≠ [])
    (hsd : ∀ d, sd = some d →
      pathsSeparated d target ∧
      pathsSeparated d (create_backup_name fs0 target (some a)) ∧
      pathsSeparated (create_backup_name
        (step_backup_target fs0 target (some a) fl.backupMoveFails).1 d (some a)) target ∧
      pathsSeparated (create_backup_name
        (step_backup_target fs0 target (some a) fl.backupMoveFails).1 d (some a))
        (create_backup_name fs0 target (some a))) :
    (∀ fsr r, copy_server_files fs0 source target sd (some a) fl = (fsr, Except.ok r) →
      (a ≠ "" → fl.versionWriteFails = false →
        FS.lookup fsr (target ++ ["version.txt"]) = some (Node.file a)) ∧
      (∀ nm, r.backup_created = some nm →
        nm = pathLast (create_backup_name fs0 target (some a)) ∧
        ∀ rest, FS.lookup fsr (create_backup_name fs0 target (some a) ++ rest) =
          FS.lookup fs0 (target ++ rest))) ∧
    (∀ fsr, copy_server_files fs0 source target sd (some a) fl = (fsr, Except.error ()) →
      (FS.pathExists fs0 target = true → (FS.childrenPairs fs0 target).isEmpty = false →
        ((∀ rest, FS.lookup fsr (target ++ rest) = FS.lookup fs0 (target ++ rest)) ∨
         (∀ rest, FS.lookup fsr (create_backup_name fs0 target (some a) ++ rest) =
           FS.lookup fs0 (target ++ rest)))) ∧
      (∀ d, sd = some d →
        (∀ rest, FS.lookup fsr (d ++ rest) = FS.lookup fs0 (d ++ rest)) ∨
        (∀ rest, FS.lookup fsr (create_backup_name
            (step_backup_target fs0 target (some a) fl.backupMoveFails).1 d (some a) ++ rest) =
          FS.lookup fs0 (d ++ rest)))) ∧
    (∀ (fsA : FS) (bp : Path), FS.NodupPaths fsA → pathsSeparated bp target →
      FS.pathExists fsA bp = true →
      FS.lookup (rollback_core fsA target bp).1 (target ++ ["version.txt"]) =
        FS.lookup fsA (bp ++ ["version.txt"])) := by
  have hbt : pathsSeparated (create_backup_name fs0 target (some a)) target :=
    create_backup_name_sep fs0 target (some a) ht
  -- frame through the whole restore-and-mark phase
  have hframeR : ∀ (fs : FS) (bcX dbcX : Option String) (q : Path),
      (∀ d, sd = some d → ¬ d <+: q ∧ ¬ q <+: d) → ¬ target <+: q →
      FS.lookup (if truthyStr (some a) then
          create_version_file
            (step_restore_c (step_restore_b (step_restore_a fs sd dbcX).1 target sd bcX).1
              source target sd
              ((step_restore_a fs sd dbcX).2.1 +
                (step_restore_b (step_restore_a fs sd dbcX).1 target sd bcX).2.1)
              ((step_restore_a fs sd dbcX).2.2 +
                (step_restore_b (step_restore_a fs sd dbcX).1 target sd bcX).2.2.1)).1
            target ((some a).getD "") fl.versionWriteFails
        else
          (step_restore_c (step_restore_b (step_restore_a fs sd dbcX).1 target sd bcX).1
            source target sd
            ((step_restore_a fs sd dbcX).2.1 +
              (step_restore_b (step_restore_a fs sd dbcX).1 target sd bcX).2.1)
            ((step_restore_a fs sd dbcX).2.2 +
              (step_restore_b (step_restore_a fs sd dbcX).1 target sd bcX).2.2.1)).1) q =
      FS.lookup fs q := by
    intro fs bcX dbcX q hq ht2
    by_cases htr : truthyStr (some a) = true
    · rw [if_pos htr, create_version_file_frame _ _ _ _ ht2,
        step_restore_c_frame _ _ _ _ _ _ hq ht2,
        step_restore_b_frame _ _ _ _ hq ht2,
        step_restore_a_frame _ _ _ hq]
    · rw [if_neg htr,
        step_restore_c_frame _ _ _ _ _ _ hq ht2,
        step_restore_b_frame _ _ _ _ hq ht2,
        step_restore_a_frame _ _ _ hq]
  -- frame through the install step
  have hframeI : ∀ (fs : FS) (q : Path), ¬ q <+: target → ¬ target <+: q →
      FS.lookup (FS.copyChildren (FS.mkdirp fs target) source target).1 q =
        FS.lookup fs q := by
    intro fs q h1 h2
    rw [FS.lookup_copyChildren_frame h2, FS.lookup_mkdirp_frame h1]
  -- conditions instantiated at q = bp0 ++ rest
  have hq_bp0 : ∀ rest, (∀ d, sd = some d →
      ¬ d <+: (create_backup_name fs0 target (some a) ++ rest) ∧
      ¬ (create_backup_name fs0 target (some a) ++ rest) <+: d) := by
    intro rest d hd
    obtain ⟨-, hdb, -, -⟩ := hsd d hd
    exact ⟨not_pre_of_sep_left hdb.1 hdb.2 rest, append_not_pre hdb.2 rest⟩
  have ht_bp0 : ∀ rest, ¬ target <+: (create_backup_name fs0 target (some a) ++ rest) :=
    fun rest => not_pre_of_sep_left hbt.2 hbt.1 rest
  have htq_bp0 : ∀ rest, ¬ (create_backup_name fs0 target (some a) ++ rest) <+: target :=
    fun rest => append_not_pre hbt.1 rest
  -- frame through step 2 (the data backup move), at q = bp0 ++ rest
  have hframe2 : ∀ (fs1 fs2 : FS) (dbc : Option String),
      (step_backup_target fs0 target (some a) fl.backupMoveFails).1 = fs1 →
      step_backup_data fs1 sd (some a) fl.dataMoveFails = (fs2, Except.ok dbc) →
      ∀ rest, FS.lookup fs2 (create_backup_name fs0 target (some a) ++ rest) =
        FS.lookup fs1 (create_backup_name fs0 target (some a) ++ rest) := by
    intro fs1 fs2 dbc hfs1 heq2 rest
    rcases step_backup_data_ok heq2 with ⟨hfs, -⟩ | ⟨d, hd, hfs, -, -⟩
    · rw [hfs]
    · obtain ⟨-, hdb, -, hsb⟩ := hsd d hd
      rw [hfs1] at hsb
      rw [hfs]
      exact FS.lookup_rename_frame
        (not_pre_of_sep_left hdb.1 hdb.2 rest)
        (not_pre_of_sep_left hsb.1 hsb.2 rest)
  refine ⟨?_, ?_, ?_⟩
  · -- success case
    intro fsr r h
    obtain ⟨fs1, bc, fs2, dbc, fs3, cf, cd, heq1, heq2, heq3, -, hfsr, hr⟩ :=
      copy_server_files_ok h
    constructor
    · intro ha hwf
      have htr : truthyStr (some a) = true := by
        unfold truthyStr
        simpa using ha
      rw [hfsr, if_pos htr]
      unfold create_version_file
      rw [hwf]
      simp only [Bool.false_eq_true, if_false]
      exact FS.lookup_set_self _ _ _
    · intro nm hnm
      rcases step_backup_target_ok heq1 with ⟨-, hbc, -⟩ | ⟨hfs1, hbc, -, -⟩
      · rw [hr] at hnm
        simp only at hnm
        rw [hbc] at hnm
        exact Option.noConfusion hnm
      · have hnm2 : nm = pathLast (create_backup_name fs0 target (some a)) := by
          rw [hr] at hnm
          simp only at hnm
          rw [hbc] at hnm
          injection hnm with hnm
          exact hnm.symm
        refine ⟨hnm2, ?_⟩
        intro rest
        rw [hfsr, hframeR fs3 bc dbc _ (hq_bp0 rest) (ht_bp0 rest)]
        have hinst := step_install_ok heq3
        rw [hinst.2, hframeI fs2 _ (htq_bp0 rest) (ht_bp0 rest)]
        rw [hframe2 fs1 fs2 dbc (by rw [heq1]) heq2 rest]
        rw [hfs1]
        exact FS.lookup_rename_dst (create_backup_name_spec fs0 target (some a)).1 rest
  · -- error case
    intro fsr h
    rcases copy_server_files_err h with heq1 | ⟨fs1, bc, heq1, heq2⟩ |
      ⟨fs1, bc, fs2, dbc, heq1, heq2, heq3⟩ | ⟨fs1, bc, fs2, dbc, cf, cd, heq1, heq2, heq3, -⟩
    · have hfsr := step_backup_target_err heq1
      subst hfsr
      exact ⟨fun _ _ => Or.inl (fun rest => rfl), fun d hd => Or.inl (fun rest => rfl)⟩
    · have hfsr := step_backup_data_err heq2
      subst hfsr
      constructor
      · intro hex hne
        rcases step_backup_target_ok heq1 with ⟨-, -, hcondf⟩ | ⟨hfs1, -, -, -⟩
        · rw [hex, hne] at hcondf
          exact absurd hcondf (by simp)
        · refine Or.inr ?_
          intro rest
          rw [hfs1]
          exact FS.lookup_rename_dst (create_backup_name_spec fs0 target (some a)).1 rest
      · intro d hd
        refine Or.inl ?_
        intro rest
        obtain ⟨hdt, hdb, -, -⟩ := hsd d hd
        rcases step_backup_target_ok heq1 with ⟨hfs1, -, -⟩ | ⟨hfs1, -, -, -⟩
        · rw [hfs1]
        · rw [hfs1]
          exact FS.lookup_rename_frame
            (not_pre_of_sep_left hdt.2 hdt.1 rest)
            (not_pre_of_sep_left hdb.2 hdb.1 rest)
    · have hfsr := step_install_err heq3
      subst hfsr
      constructor
      · intro hex hne
        rcases step_backup_target_ok heq1 with ⟨-, -, hcondf⟩ | ⟨hfs1, -, -, -⟩
        · rw [hex, hne] at hcondf
          exact absurd hcondf (by simp)
        · refine Or.inr ?_
          intro rest
          rw [FS.lookup_mkdirp_frame (htq_bp0 rest)]
          rw [hframe2 fs1 fs2 dbc (by rw [heq1]) heq2 rest]
          rw [hfs1]
          exact FS.lookup_rename_dst (create_backup_name_spec fs0 target (some a)).1 rest
      · intro d hd
        obtain ⟨hdt, hdb, hst, -⟩ := hsd d hd
        rcases step_backup_data_ok heq2 with ⟨hfs2, -⟩ | ⟨d2, hd2, hfs2, -, -⟩
        · refine Or.inl ?_
          intro rest
          rw [hfs2]
          rw [FS.lookup_mkdirp_frame (append_not_pre hdt.1 rest)]
          rcases step_backup_target_ok heq1 with ⟨hfs1, -, -⟩ | ⟨hfs1, -, -, -⟩
          · rw [hfs1]
          · rw [hfs1]
            exact FS.lookup_rename_frame
              (not_pre_of_sep_left hdt.2 hdt.1 rest)
              (not_pre_of_sep_left hdb.2 hdb.1 rest)
        · rw [hd2] at hd
          injection hd with hd
          subst hd
          refine Or.inr ?_
          intro rest
          rw [show (step_backup_target fs0 target (some a) fl.backupMoveFails).1 = fs1
            from by rw [heq1]] at hst ⊢
          rw [FS.lookup_mkdirp_frame (append_not_pre hst.1 rest)]
          rw [hfs2]
          rw [FS.lookup_rename_dst (create_backup_name_spec fs1 d2 (some a)).1 rest]
          rcases step_backup_target_ok heq1 with ⟨hfs1, -, -⟩ | ⟨hfs1, -, -, -⟩
          · rw [hfs1]
          · rw [hfs1]
            exact FS.lookup_rename_frame
              (not_pre_of_sep_left hdt.2 hdt.1 rest)
              (not_pre_of_sep_left hdb.2 hdb.1 rest)
    · have hinst := step_install_ok heq3
      rw [hinst.2]
      constructor
      · intro hex hne
        rcases step_backup_target_ok heq1 with ⟨-, -, hcondf⟩ | ⟨hfs1, -, -, -⟩
        · rw [hex, hne] at hcondf
          exact absurd hcondf (by simp)
        · refine Or.inr ?_
          intro rest
          rw [hframeI fs2 _ (htq_bp0 rest) (ht_bp0 rest)]
          rw [hframe2 fs1 fs2 dbc (by rw [heq1]) heq2 rest]
          rw [hfs1]
          exact FS.lookup_rename_dst (create_backup_name_spec fs0 target (some a)).1 rest
      · intro d hd
        obtain ⟨hdt, hdb, hst, -⟩ := hsd d hd
        rcases step_backup_data_ok heq2 with ⟨hfs2, -⟩ | ⟨d2, hd2, hfs2, -, -⟩
        · refine Or.inl ?_
          intro rest
          rw [hframeI fs2 _ (append_not_pre hdt.1 rest)
            (not_pre_of_sep_left hdt.2 hdt.1 rest)]
          rw [hfs2]
          rcases step_backup_target_ok heq1 with ⟨hfs1, -, -⟩ | ⟨hfs1, -, -, -⟩
          · rw [hfs1]
          · rw [hfs1]
            exact FS.lookup_rename_frame
              (not_pre_of_sep_left hdt.2 hdt.1 rest)
              (not_pre_of_sep_left hdb.2 hdb.1 rest)
        · rw [hd2] at hd
          injection hd with hd
          subst hd
          refine Or.inr ?_
          intro rest
          rw [show (step_backup_target fs0 target (some a) fl.backupMoveFails).1 = fs1
            from by rw [heq1]] at hst ⊢
          rw [hframeI fs2 _ (append_not_pre hst.1 rest)
            (not_pre_of_sep_left hst.2 hst.1 rest)]
          rw [hfs2]
          rw [FS.lookup_rename_dst (create_backup_name_spec fs1 d2 (some a)).1 rest]
          rcases step_backup_target_ok heq1 with ⟨hfs1, -, -⟩ | ⟨hfs1, -, -, -⟩
          · rw [hfs1]
          · rw [hfs1]
            exact FS.lookup_rename_frame
              (not_pre_of_sep_left hdt.2 hdt.1 rest)
              (not_pre_of_sep_left hdb.2 hdb.1 rest)
  · -- rollback inherits its marker from the chosen backup content
    intro fsA bp hA hsep hbe
    exact (rollback_content fsA target bp hA ht hsep hbe).2.1 ["version.txt"]

/-- C2 witness: on tierFS with data directory configured, a fault-free
update writes the marker and parks the old deployment at srv_backup_2;
with an install fault the update aborts with the backups intact; a
rollback inherits the backup's version marker. -/
theorem claim_C2_witness :
    FS.lookup (copy_server_files tierFS ["s"] ["b", "srv"] (some ["b", "data"])
        (some "2") noFaults).1 (["b", "srv"] ++ ["version.txt"]) =
      some (Node.file "2") ∧
    FS.lookup (copy_server_files tierFS ["s"] ["b", "srv"] (some ["b", "data"])
        (some "2") noFaults).1
      (create_backup_name tierFS ["b", "srv"] (some "2") ++ ["x.txt"]) =
      FS.lookup tierFS (["b", "srv"] ++ ["x.txt"]) ∧
    ((∀ rest, FS.lookup (copy_server_files tierFS ["s"] ["b", "srv"] (some ["b", "data"])
        (some "2") installFault).1 (["b", "srv"] ++ rest) =
        FS.lookup tierFS (["b", "srv"] ++ rest)) ∨
     (∀ rest, FS.lookup (copy_server_files tierFS ["s"] ["b", "srv"] (some ["b", "data"])
        (some "2") installFault).1
        (create_backup_name tierFS ["b", "srv"] (some "2") ++ rest) =
        FS.lookup tierFS (["b", "srv"] ++ rest))) ∧
    FS.lookup (rollback_core
        [(["b"], Node.dir), (["b", "srv"], Node.dir), (["b", "srv_backup_1"], Node.dir),
         (["b", "srv_backup_1", "version.txt"], Node.file "1")]
        ["b", "srv"] ["b", "srv_backup_1"]).1 (["b", "srv"] ++ ["version.txt"]) =
      FS.lookup
        [(["b"], Node.dir), (["b", "srv"], Node.dir), (["b", "srv_backup_1"], Node.dir),
         (["b", "srv_backup_1", "version.txt"], Node.file "1")]
        (["b", "srv_backup_1"] ++ ["version.txt"]) := by
  have hsd1 : ∀ d, (some ["b", "data"] : Option Path) = some d →
      pathsSeparated d ["b", "srv"] ∧
      pathsSeparated d (create_backup_name tierFS ["b", "srv"] (some "2")) ∧
      pathsSeparated (create_backup_name
        (step_backup_target tierFS ["b", "srv"] (some "2") noFaults.backupMoveFails).1
        d (some "2")) ["b", "srv"] ∧
      pathsSeparated (create_backup_name
        (step_backup_target tierFS ["b", "srv"] (some "2") noFaults.backupMoveFails).1
        d (some "2")) (create_backup_name tierFS ["b", "srv"] (some "2")) := by
    intro d hd
    injection hd with hd
    subst hd
    exact ⟨⟨by decide, by decide⟩, ⟨by decide, by decide⟩,
      ⟨by decide, by decide⟩, ⟨by decide, by decide⟩⟩
  have hsd2 : ∀ d, (some ["b", "data"] : Option Path) = some d →
      pathsSeparated d ["b", "srv"] ∧
      pathsSeparated d (create_backup_name tierFS ["b", "srv"] (some "2")) ∧
      pathsSeparated (create_backup_name
        (step_backup_target tierFS ["b", "srv"] (some "2") installFault.backupMoveFails).1
        d (some "2")) ["b", "srv"] ∧
      pathsSeparated (create_backup_name
        (step_backup_target tierFS ["b", "srv"] (some "2") installFault.backupMoveFails).1
        d (some "2")) (create_backup_name tierFS ["b", "srv"] (some "2")) := by
    intro d hd
    injection hd with hd
    subst hd
    exact ⟨⟨by decide, by decide⟩, ⟨by decide, by decide⟩,
      ⟨by decide, by decide⟩, ⟨by decide, by decide⟩⟩
  refine ⟨?_, ?_, ?_, ?_⟩
  · exact ((claim_C2_update_marker_or_backup_intact tierFS ["s"] ["b", "srv"]
      (some ["b", "data"]) "2" noFaults (by decide) hsd1).1 _
      { backup_created := some "srv_backup_2", data_backup_created := some "data_backup_2",
        copied_files := 1, copied_dirs := 0,
        tierA_files := 1, tierA_dirs := 0, tierB_files := 1, tierB_dirs := 0,
        tierC_files := 0, tierC_dirs := 0, tierB_ran := true, tierC_ran := false }
      (by rfl)).1 (by decide) rfl
  · exact (((claim_C2_update_marker_or_backup_intact tierFS ["s"] ["b", "srv"]
      (some ["b", "data"]) "2" noFaults (by decide) hsd1).1 _
      { backup_created := some "srv_backup_2", data_backup_created := some "data_backup_2",
        copied_files := 1, copied_dirs := 0,
        tierA_files := 1, tierA_dirs := 0, tierB_files := 1, tierB_dirs := 0,
        tierC_files := 0, tierC_dirs := 0, tierB_ran := true, tierC_ran := false }
      (by rfl)).2 "srv_backup_2" (by rfl)).2 ["x.txt"]
  · exact ((claim_C2_update_marker_or_backup_intact tierFS ["s"] ["b", "srv"]
      (some ["b", "data"]) "2" installFault (by decide) hsd2).2.1 _ (by rfl)).1
      (by decide) (by decide)
  · exact (claim_C2_update_marker_or_backup_intact tierFS ["s"] ["b", "srv"]
      (some ["b", "data"]) "2" noFaults (by decide) hsd1).2.2
      [(["b"], Node.dir), (["b", "srv"], Node.dir), (["b", "srv_backup_1"], Node.dir),
       (["b", "srv_backup_1", "version.txt"], Node.file "1")]
      ["b", "srv_backup_1"] (by unfold FS.NodupPaths; decide)
      ⟨by decide, by decide⟩ (by decide)

/-- C3: rollback moves the current deployment aside as a fresh safety
backup named from the version being replaced (create_backup_name on the
current tree), copies — does not move — the chosen backup's content into
the deployment, and afterwards the chosen backup still exists with its
content unchanged, so it remains selectable for a later rollback. -/
theorem claim_C3_rollback_preserves_chosen_backup (fs : FS) (target backupPath : Path)
    (hnd : FS.NodupPaths fs) (ht : target ≠ [])
    (hbt : pathsSeparated backupPath target)
    (hbe : FS.pathExists fs backupPath = true) :
    (∀ r, FS.lookup (rollback_core fs target backupPath).1 (backupPath ++ r) =
      FS.lookup fs (backupPath ++ r)) ∧
    FS.pathExists (rollback_core fs target backupPath).1 backupPath = true ∧
    (∀ r, FS.lookup (rollback_core fs target backupPath).1 (target ++ r) =
      FS.lookup fs (backupPath ++ r)) ∧
    (rollback_core fs target backupPath).2 = create_backup_name fs target none ∧
    FS.pathExists fs (rollback_core fs target backupPath).2 = false ∧
    (rollback_core fs target backupPath).2.dropLast = target.dropLast ∧
    (∀ r, FS.lookup (rollback_core fs target backupPath).1
      ((rollback_core fs target backupPath).2 ++ r) = FS.lookup fs (target ++ r)) := by
  obtain ⟨h1, h2, h3, h4, h5, h6⟩ := rollback_content fs target backupPath hnd ht hbt hbe
  refine ⟨h1, ?_, h2, h4, h5, h6, h3⟩
  obtain ⟨r, hr⟩ := FS.exists_lookup_of_pathExists hbe
  have hr2 : (FS.lookup (rollback_core fs target backupPath).1 (backupPath ++ r)).isSome =
      true := by
    rw [h1 r]
    exact hr
  exact FS.pathExists_mono (List.prefix_append backupPath r)
    (FS.lookup_isSome_pathExists hr2)

/-- C3 witness: rolling rollbackFS back to srv_backup_1 leaves the
chosen backup intact, restores f.txt = Old into the deployment, and
parks the old deployment (f.txt = New) at the fresh sibling
srv_backup_2. -/
theorem claim_C3_witness :
    FS.lookup (rollback_core rollbackFS ["b", "srv"] ["b", "srv_backup_1"]).1
      (["b", "srv_backup_1"] ++ ["f.txt"]) =
      FS.lookup rollbackFS (["b", "srv_backup_1"] ++ ["f.txt"]) ∧
    FS.pathExists (rollback_core rollbackFS ["b", "srv"] ["b", "srv_backup_1"]).1
      ["b", "srv_backup_1"] = true ∧
    FS.lookup (rollback_core rollbackFS ["b", "srv"] ["b", "srv_backup_1"]).1
      (["b", "srv"] ++ ["f.txt"]) = some (Node.file "Old") ∧
    (rollback_core rollbackFS ["b", "srv"] ["b", "srv_backup_1"]).2 =
      ["b", "srv_backup_2"] ∧
    FS.lookup (rollback_core rollbackFS ["b", "srv"] ["b", "srv_backup_1"]).1
      (["b", "srv_backup_2"] ++ ["f.txt"]) = some (Node.file "New") := by
  have h := claim_C3_rollback_preserves_chosen_backup rollbackFS ["b", "srv"]
    ["b", "srv_backup_1"] (by unfold FS.NodupPaths; decide) (by decide)
    ⟨by decide, by decide⟩ (by decide)
  refine ⟨h.1 ["f.txt"], h.2.1, ?_, by rfl, ?_⟩
  · rw [h.2.2.1 ["f.txt"]]
    rfl
  · have h7 := h.2.2.2.2.2.2 ["f.txt"]
    have hsb : (rollback_core rollbackFS ["b", "srv"] ["b", "srv_backup_1"]).2 =
        ["b", "srv_backup_2"] := by rfl
    rw [hsb] at h7
    rw [h7]
    rfl

end FiveM



